import Mathlib

/-!
# Verification of the coupang-project ingestion / merge / analytics core

This file gives a shallow embedding, in Lean 4, of the data model and the
operations of the coupang-project repository:

* `src/hooks/useSalesData.ts` — the `addRecords` merge of an uploaded sales
  batch into the persisted record set;
* `src/utils/analytics.ts` — `getProductSummary`, `groupProductsByName`,
  `getWeeklyComparison`, `getInventoryRiskAnalysis`;
* `src/utils/excelParser.ts` — the sales-sheet and product-master-sheet
  ingestion (header detection, column detection, date normalization, row
  parsing).

Modelling conventions:

* JavaScript `Map` objects and plain objects used as dictionaries are
  embedded as association lists (`JMap`) with string keys; `aSet` replaces
  an existing binding in place (keeping its position) and appends new
  bindings, exactly like `Map.prototype.set` / property assignment.
* JavaScript numbers carried by records are embedded as rationals (`ℚ`);
  spreadsheet numeric cells are embedded as integers (the claims under
  verification only exercise integral cell values, and integral doubles are
  exact).
* `Array.prototype.sort` with a comparator is embedded as `insertionSort`
  with the comparator's reflexive closure; all `sort` call sites in this
  code sort by ISO `YYYY-MM-DD` date strings (where the source's numeric
  timestamp comparison coincides with lexicographic string order) or by a
  numeric field.
* JavaScript `Date` calendar arithmetic is embedded through day-number /
  civil-date conversions (the standard days-from-civil algorithm); the host
  timezone is taken to be UTC.
-/

/-! ## Association lists: the embedding of JavaScript `Map` -/

/-- An insertion-ordered string-keyed dictionary, the embedding of a
JavaScript `Map` (and of plain objects used as dictionaries). -/
abbrev JMap (α : Type) : Type := List (String × α)

/-- Lookup, the embedding of `Map.prototype.get` / property read. -/
def aGet {α : Type} : JMap α → String → Option α
  | [], _ => none
  | p :: t, k => if p.1 = k then some p.2 else aGet t k

/-- Update, the embedding of `Map.prototype.set` / property write: an
existing binding is replaced in place (keeping its position), a new binding
is appended. -/
def aSet {α : Type} (m : JMap α) (k : String) (v : α) : JMap α :=
  if (aGet m k).isSome then
    m.map (fun p => if p.1 = k then (k, v) else p)
  else
    m ++ [(k, v)]

/-- The values of the dictionary in insertion order, the embedding of
`Array.from(map.values())`. -/
def aVals {α : Type} (m : JMap α) : List α := m.map (fun p => p.2)

/-- The keys of the dictionary in insertion order. -/
def aKeys {α : Type} (m : JMap α) : List String := m.map (fun p => p.1)

theorem aGet_nil {α : Type} (k : String) : aGet (α := α) [] k = none := rfl

theorem aGet_cons {α : Type} (p : String × α) (m : JMap α) (k : String) :
    aGet (p :: m) k = if p.1 = k then some p.2 else aGet m k := rfl

theorem aGet_replace_self {α : Type} (m : JMap α) (k : String) (v : α) :
    aGet (m.map (fun p => if p.1 = k then (k, v) else p)) k =
      if (aGet m k).isSome then some v else none := by
  induction m with
  | nil => rfl
  | cons p t ih =>
    by_cases hp : p.1 = k
    · simp [aGet_cons, hp]
    · simp [aGet_cons, hp, ih]

theorem aGet_replace_ne {α : Type} (m : JMap α) (k k' : String) (v : α)
    (h : k' ≠ k) :
    aGet (m.map (fun p => if p.1 = k then (k, v) else p)) k' = aGet m k' := by
  induction m with
  | nil => rfl
  | cons p t ih =>
    by_cases hp : p.1 = k
    · simp [aGet_cons, hp, Ne.symm h, ih]
    · simp [aGet_cons, hp, ih]

theorem aGet_append_single {α : Type} (m : JMap α) (k k' : String) (v : α) :
    aGet (m ++ [(k, v)]) k' =
      match aGet m k' with
      | some w => some w
      | none => if k = k' then some v else none := by
  induction m with
  | nil => rfl
  | cons p t ih =>
    by_cases hp : p.1 = k'
    · simp [aGet_cons, hp]
    · simp [aGet_cons, hp, ih]

theorem aGet_aSet_self {α : Type} (m : JMap α) (k : String) (v : α) :
    aGet (aSet m k v) k = some v := by
  unfold aSet
  by_cases h : (aGet m k).isSome
  · simp [h, aGet_replace_self]
  · have hn : aGet m k = none := Option.not_isSome_iff_eq_none.mp h
    simp [h, aGet_append_single, hn]

theorem aGet_aSet_ne {α : Type} (m : JMap α) (k k' : String) (v : α)
    (h : k' ≠ k) : aGet (aSet m k v) k' = aGet m k' := by
  unfold aSet
  by_cases hm : (aGet m k).isSome
  · simp [hm, aGet_replace_ne _ _ _ _ h]
  · rw [if_neg hm, aGet_append_single]
    cases hg : aGet m k' with
    | none => simp [Ne.symm h]
    | some w => simp

theorem aGet_isSome_iff_mem_aKeys {α : Type} (m : JMap α) (k : String) :
    (aGet m k).isSome ↔ k ∈ aKeys m := by
  induction m with
  | nil => simp [aGet_nil, aKeys]
  | cons p t ih =>
    by_cases hp : p.1 = k
    · simp [aGet_cons, hp, aKeys]
    · simp [aGet_cons, hp, aKeys, Ne.symm hp] at ih ⊢
      simpa [aKeys] using ih

theorem aKeys_aSet {α : Type} (m : JMap α) (k : String) (v : α) :
    aKeys (aSet m k v) = if k ∈ aKeys m then aKeys m else aKeys m ++ [k] := by
  unfold aSet
  by_cases h : (aGet m k).isSome
  · rw [if_pos h, if_pos ((aGet_isSome_iff_mem_aKeys m k).mp h)]
    simp only [aKeys, List.map_map]
    apply List.map_congr_left
    intro p _
    by_cases hp : p.1 = k
    · simp [hp]
    · simp [hp]
  · rw [if_neg h, if_neg (fun hc => h ((aGet_isSome_iff_mem_aKeys m k).mpr hc))]
    simp [aKeys]

theorem aKeys_nodup_aSet {α : Type} (m : JMap α) (k : String) (v : α)
    (h : (aKeys m).Nodup) : (aKeys (aSet m k v)).Nodup := by
  rw [aKeys_aSet]
  by_cases hk : k ∈ aKeys m
  · simpa [hk]
  · simpa [hk, List.nodup_append] using h

theorem aSet_pred {α : Type} (Q : String × α → Prop) (m : JMap α)
    (k : String) (v : α) (hm : ∀ p ∈ m, Q p) (hv : Q (k, v)) :
    ∀ p ∈ aSet m k v, Q p := by
  intro p hp
  unfold aSet at hp
  by_cases h : (aGet m k).isSome
  · simp only [h, if_true, List.mem_map] at hp
    obtain ⟨q, hq, he⟩ := hp
    by_cases hqk : q.1 = k
    · simp only [hqk, if_true] at he
      exact he ▸ hv
    · simp only [hqk, if_false] at he
      exact he ▸ hm q hq
  · rw [if_neg h] at hp
    rcases List.mem_append.mp hp with hp | hp
    · exact hm p hp
    · exact (List.mem_singleton.mp hp) ▸ hv

theorem aGet_eq_some_of_mem_nodup {α : Type} (m : JMap α) (k : String)
    (v : α) (hn : (aKeys m).Nodup) (hm : (k, v) ∈ m) : aGet m k = some v := by
  induction m with
  | nil => simp at hm
  | cons p t ih =>
    simp only [List.mem_cons] at hm
    rcases hm with hm | hm
    · simp [aGet_cons, ← hm]
    · have hk : k ∈ aKeys t := by
        simp only [aKeys, List.mem_map]
        exact ⟨(k, v), hm, rfl⟩
      have hne : p.1 ≠ k := by
        intro he
        simp only [aKeys, List.map_cons, List.nodup_cons] at hn
        exact hn.1 (by simpa [aKeys, he] using hk)
      have hnd : (aKeys t).Nodup := by
        simp only [aKeys, List.map_cons, List.nodup_cons] at hn
        exact hn.2
      simp [aGet_cons, hne, ih hnd hm]

theorem mem_aVals_of_aGet {α : Type} (m : JMap α) (k : String) (v : α)
    (h : aGet m k = some v) : v ∈ aVals m := by
  induction m with
  | nil => simp [aGet_nil] at h
  | cons p t ih =>
    rw [aGet_cons] at h
    by_cases hp : p.1 = k
    · rw [if_pos hp] at h
      simp only [Option.some.injEq] at h
      simp [aVals, h]
    · rw [if_neg hp] at h
      simp [aVals] at ih ⊢
      exact Or.inr (by simpa [aVals] using ih h)

theorem exists_key_of_mem_aVals {α : Type} (m : JMap α) (v : α)
    (h : v ∈ aVals m) : ∃ k, (k, v) ∈ m := by
  simp only [aVals, List.mem_map] at h
  obtain ⟨p, hp, he⟩ := h
  exact ⟨p.1, by simpa [← he] using hp⟩

/-! ## Data model (interfaces of src/utils/excelParser.ts) -/

/-- `SalesRecord` (excelParser.ts lines 4-12).  Quantities are JavaScript
numbers, embedded as rationals. -/
structure SalesRecord where
  productId : String
  skuId : String
  productName : String
  barcode : String
  date : String
  salesQty : ℚ
  inventoryQty : ℚ
deriving DecidableEq, Repr, Inhabited

/-- `ProductMaster` (excelParser.ts lines 14-22). -/
structure ProductMaster where
  barcode : String
  skuName : String
  skuId : String
  category : Option String
  costPrice : Option ℚ
  imageUrl : Option String
  hqInventory : Option ℚ
deriving DecidableEq, Repr, Inhabited

/-- `InboundRecord` (excelParser.ts lines 326-330). -/
structure InboundRecord where
  barcode : String
  productName : String
  inboundQty : ℚ
deriving DecidableEq, Repr, Inhabited

/-! ## RecordMerger: `addRecords` (src/hooks/useSalesData.ts lines 72-121) -/

/-- The composite merge key of a sales record: `productId + "_" + date`. -/
def recKey (r : SalesRecord) : String := r.productId ++ "_" ++ r.date

/-- Combination of two batch rows sharing one key (lines 82-87): the object
spread takes every metadata field from the new row `r`, and the two
quantities are summed.  (The source's `|| 0` guards are the identity on the
numbers involved.) -/
def combineBatch (existing r : SalesRecord) : SalesRecord :=
  { r with salesQty := existing.salesQty + r.salesQty,
           inventoryQty := existing.inventoryQty + r.inventoryQty }

/-- One step of the intra-batch aggregation loop (lines 78-91). -/
def batchStep (m : JMap SalesRecord) (r : SalesRecord) : JMap SalesRecord :=
  match aGet m (recKey r) with
  | some existing => aSet m (recKey r) (combineBatch existing r)
  | none => aSet m (recKey r) r

/-- Phase 1 of the merge: aggregation inside the new batch only
(lines 76-91). -/
def buildBatchMap (newRecords : List SalesRecord) : JMap SalesRecord :=
  newRecords.foldl batchStep []

/-- The persisted records keyed by their merge key (lines 95-96). -/
def existingMapOf (prev : List SalesRecord) : JMap SalesRecord :=
  prev.foldl (fun m r => aSet m (recKey r) r) []

/-- Phase 2 of the merge: every aggregated batch entry is written into the
persisted map; a key collision overwrites the persisted entry
(lines 101-110). -/
def mergeIntoExisting (existingMap batchMap : JMap SalesRecord) :
    JMap SalesRecord :=
  batchMap.foldl (fun m p => aSet m p.1 p.2) existingMap

/-- The ordering used by the final sort (line 114).  The source compares
`new Date(date).getTime()`; on the ISO `YYYY-MM-DD` strings this code
produces, that order coincides with lexicographic string order. -/
def dateLe (a b : SalesRecord) : Prop := a.date ≤ b.date

instance : DecidableRel dateLe :=
  fun a b => inferInstanceAs (Decidable (a.date ≤ b.date))

instance : IsTotal SalesRecord dateLe := ⟨fun a b => le_total a.date b.date⟩

instance : IsTrans SalesRecord dateLe := ⟨fun _ _ _ h1 h2 => le_trans h1 h2⟩

/-- `addRecords` (useSalesData.ts lines 72-121): aggregate inside the batch,
merge into the persisted map with overwrite-on-collision, then sort the
values by ascending date. -/
def addRecords (prev newRecords : List SalesRecord) : List SalesRecord :=
  let batchMap := buildBatchMap newRecords
  let existingMap := existingMapOf prev
  let merged := mergeIntoExisting existingMap batchMap
  (aVals merged).insertionSort dateLe

/-! ### Characterization of the three phases -/

theorem aGet_foldl_batchStep (rs : List SalesRecord) (m : JMap SalesRecord)
    (k : String) :
    aGet (rs.foldl batchStep m) k =
      match aGet m k with
      | some e =>
          some ((rs.filter (fun r => recKey r == k)).foldl combineBatch e)
      | none =>
          match rs.filter (fun r => recKey r == k) with
          | [] => none
          | r0 :: ms => some (ms.foldl combineBatch r0) := by
  induction rs generalizing m with
  | nil => rcases hg : aGet m k with _ | e <;> simp [hg]
  | cons r rs ih =>
    rw [List.foldl_cons, List.filter_cons]
    by_cases hk : recKey r = k
    · have hkb : (recKey r == k) = true := by simpa using hk
      cases hg : aGet m k with
      | some e =>
        have step : aGet (batchStep m r) k = some (combineBatch e r) := by
          unfold batchStep
          rw [hk, hg]
          exact aGet_aSet_self _ _ _
        rw [ih, step]
        simp [hkb]
      | none =>
        have step : aGet (batchStep m r) k = some r := by
          unfold batchStep
          rw [hk, hg]
          exact aGet_aSet_self _ _ _
        rw [ih, step]
        simp [hkb]
    · have hkb : (recKey r == k) = false := by simpa using hk
      have step : aGet (batchStep m r) k = aGet m k := by
        unfold batchStep
        have hne : k ≠ recKey r := fun he => hk he.symm
        cases aGet m (recKey r) with
        | some e => exact aGet_aSet_ne _ _ _ _ hne
        | none => exact aGet_aSet_ne _ _ _ _ hne
      rw [ih, step]
      simp [hkb]

theorem foldl_combineBatch_salesQty (ms : List SalesRecord)
    (e : SalesRecord) :
    (ms.foldl combineBatch e).salesQty =
      e.salesQty + (ms.map (fun r => r.salesQty)).sum := by
  induction ms generalizing e with
  | nil => simp
  | cons r ms ih =>
    rw [List.foldl_cons, ih]
    simp [combineBatch]
    ring

theorem foldl_combineBatch_inventoryQty (ms : List SalesRecord)
    (e : SalesRecord) :
    (ms.foldl combineBatch e).inventoryQty =
      e.inventoryQty + (ms.map (fun r => r.inventoryQty)).sum := by
  induction ms generalizing e with
  | nil => simp
  | cons r ms ih =>
    rw [List.foldl_cons, ih]
    simp [combineBatch]
    ring

/-- The last record of `l` whose merge key is `k`, i.e. the binding that the
read-modify-write loop building the persisted map leaves behind. -/
def lastWith (l : List SalesRecord) (k : String) : Option SalesRecord :=
  l.foldl (fun acc r => if recKey r = k then some r else acc) none

theorem aGet_existingMapOf (prev : List SalesRecord) (k : String) :
    aGet (existingMapOf prev) k = lastWith prev k := by
  suffices h : ∀ (m : JMap SalesRecord) (acc : Option SalesRecord),
      aGet m k = acc →
      aGet (prev.foldl (fun m r => aSet m (recKey r) r) m) k =
        prev.foldl (fun acc r => if recKey r = k then some r else acc) acc by
    exact h [] none rfl
  induction prev with
  | nil => intro m acc hm; simpa [lastWith] using hm
  | cons r rs ih =>
    intro m acc hm
    rw [List.foldl_cons, List.foldl_cons]
    by_cases hk : recKey r = k
    · exact ih _ _ (by rw [if_pos hk, ← hk, aGet_aSet_self])
    · exact ih _ _ (by rw [if_neg hk, aGet_aSet_ne _ _ _ _ (fun he => hk he.symm), hm])

theorem foldl_lastAux_mem (l : List SalesRecord) (k : String) :
    ∀ (acc : Option SalesRecord) (v : SalesRecord),
      l.foldl (fun acc r => if recKey r = k then some r else acc) acc = some v →
      acc = some v ∨ (v ∈ l ∧ recKey v = k) := by
  induction l with
  | nil => intro acc v h; exact Or.inl h
  | cons r rs ih =>
    intro acc v h
    rw [List.foldl_cons] at h
    by_cases hk : recKey r = k
    · rw [if_pos hk] at h
      rcases ih _ _ h with h1 | h2
      · have hv : r = v := by injection h1
        exact Or.inr ⟨hv ▸ List.mem_cons_self r rs, hv ▸ hk⟩
      · exact Or.inr ⟨List.mem_cons_of_mem _ h2.1, h2.2⟩
    · rw [if_neg hk] at h
      rcases ih _ _ h with h1 | h2
      · exact Or.inl h1
      · exact Or.inr ⟨List.mem_cons_of_mem _ h2.1, h2.2⟩

theorem lastWith_mem (l : List SalesRecord) (k : String) (v : SalesRecord)
    (h : lastWith l k = some v) : v ∈ l ∧ recKey v = k := by
  rcases foldl_lastAux_mem l k none v h with h1 | h2
  · cases h1
  · exact h2

theorem foldl_lastAux_const (l : List SalesRecord) (k : String)
    (h : ∀ x ∈ l, recKey x ≠ k) (acc : Option SalesRecord) :
    l.foldl (fun acc r => if recKey r = k then some r else acc) acc = acc := by
  induction l generalizing acc with
  | nil => rfl
  | cons r rs ih =>
    rw [List.foldl_cons, if_neg (h r (List.mem_cons_self r rs))]
    exact ih (fun x hx => h x (List.mem_cons_of_mem _ hx)) acc

theorem lastWith_of_nodup (l : List SalesRecord) (r : SalesRecord)
    (hn : (l.map recKey).Nodup) (hm : r ∈ l) :
    lastWith l (recKey r) = some r := by
  induction l with
  | nil => simp at hm
  | cons a t ih =>
    rw [List.map_cons, List.nodup_cons] at hn
    rcases List.mem_cons.mp hm with hm | hm
    · subst hm
      unfold lastWith
      rw [List.foldl_cons, if_pos rfl]
      exact foldl_lastAux_const t (recKey r)
        (fun x hx he => hn.1 (he ▸ List.mem_map_of_mem recKey hx)) (some r)
    · have hne : recKey a ≠ recKey r := by
        intro he
        exact hn.1 (he ▸ List.mem_map_of_mem recKey hm)
      unfold lastWith
      rw [List.foldl_cons, if_neg hne]
      exact ih hn.2 hm

theorem aGet_mergeIntoExisting (b m0 : JMap SalesRecord) (k : String)
    (hb : (aKeys b).Nodup) :
    aGet (mergeIntoExisting m0 b) k =
      match aGet b k with
      | some v => some v
      | none => aGet m0 k := by
  induction b generalizing m0 with
  | nil => simp [mergeIntoExisting, aGet_nil]
  | cons p t ih =>
    have hbc : (p.1 :: aKeys t).Nodup := hb
    have hb1 : p.1 ∉ aKeys t := (List.nodup_cons.mp hbc).1
    have hb2 : (aKeys t).Nodup := (List.nodup_cons.mp hbc).2
    unfold mergeIntoExisting at ih ⊢
    rw [List.foldl_cons]
    by_cases hk : p.1 = k
    · subst hk
      have ht : aGet t p.1 = none := by
        rw [← Option.not_isSome_iff_eq_none, aGet_isSome_iff_mem_aKeys]
        exact hb1
      rw [ih _ hb2, aGet_cons, if_pos rfl, ht, aGet_aSet_self]
    · rw [ih _ hb2, aGet_cons, if_neg hk,
        aGet_aSet_ne _ _ _ _ (fun he => hk he.symm)]

theorem mem_aKeys_buildBatchMap (batch : List SalesRecord) (k : String) :
    k ∈ aKeys (buildBatchMap batch) ↔ k ∈ batch.map recKey := by
  rw [← aGet_isSome_iff_mem_aKeys, buildBatchMap, aGet_foldl_batchStep]
  simp only [aGet_nil]
  cases hf : batch.filter (fun r => recKey r == k) with
  | nil =>
    simp only [Option.isSome_none, Bool.false_eq_true, false_iff]
    intro hmem
    obtain ⟨r, hr, hrk⟩ := List.mem_map.mp hmem
    have : r ∈ batch.filter (fun r => recKey r == k) :=
      List.mem_filter.mpr ⟨hr, by simpa using hrk⟩
    rw [hf] at this
    simp at this
  | cons r0 ms =>
    simp only [Option.isSome_some, true_iff]
    have : r0 ∈ batch.filter (fun r => recKey r == k) := by
      rw [hf]; exact List.mem_cons_self r0 ms
    obtain ⟨hr, hrk⟩ := List.mem_filter.mp this
    exact List.mem_map.mpr ⟨r0, hr, by simpa using hrk⟩

theorem aKeys_nodup_foldl {α β : Type} (l : List β) (f : JMap α → β → JMap α)
    (hf : ∀ m b, (aKeys m).Nodup → (aKeys (f m b)).Nodup) :
    ∀ m, (aKeys m).Nodup → (aKeys (l.foldl f m)).Nodup := by
  induction l with
  | nil => intro m hm; exact hm
  | cons b t ih => intro m hm; exact ih _ (hf m b hm)

theorem pred_foldl {α β : Type} (Q : String × α → Prop) (l : List β)
    (f : JMap α → β → JMap α)
    (hf : ∀ m b, b ∈ l → (∀ p ∈ m, Q p) → ∀ p ∈ f m b, Q p) :
    ∀ m, (∀ p ∈ m, Q p) → ∀ p ∈ l.foldl f m, Q p := by
  induction l with
  | nil => intro m hm; exact hm
  | cons b t ih =>
    intro m hm
    exact ih (fun m c hc => hf m c (List.mem_cons_of_mem _ hc))
      _ (hf m b (List.mem_cons_self b t) hm)

theorem aKeys_nodup_buildBatchMap (batch : List SalesRecord) :
    (aKeys (buildBatchMap batch)).Nodup := by
  apply aKeys_nodup_foldl batch batchStep
  · intro m r hm
    unfold batchStep
    cases aGet m (recKey r) <;> exact aKeys_nodup_aSet _ _ _ hm
  · simp [aKeys]

theorem aKeys_nodup_existingMapOf (prev : List SalesRecord) :
    (aKeys (existingMapOf prev)).Nodup := by
  apply aKeys_nodup_foldl prev _ (fun m r hm => aKeys_nodup_aSet _ _ _ hm)
  simp [aKeys]

theorem aKeys_nodup_merged (prev batch : List SalesRecord) :
    (aKeys (mergeIntoExisting (existingMapOf prev) (buildBatchMap batch))).Nodup := by
  apply aKeys_nodup_foldl _ _ (fun m p hm => aKeys_nodup_aSet _ _ _ hm)
  exact aKeys_nodup_existingMapOf prev

theorem selfKeyed_buildBatchMap (batch : List SalesRecord) :
    ∀ p ∈ buildBatchMap batch, p.1 = recKey p.2 := by
  apply pred_foldl (fun p => p.1 = recKey p.2) batch batchStep
  · intro m r _ hm
    unfold batchStep
    cases aGet m (recKey r) with
    | none => exact aSet_pred _ _ _ _ hm rfl
    | some e => exact aSet_pred _ _ _ _ hm rfl
  · intro p hp; simp at hp

theorem selfKeyed_merged (prev batch : List SalesRecord) :
    ∀ p ∈ mergeIntoExisting (existingMapOf prev) (buildBatchMap batch),
      p.1 = recKey p.2 := by
  apply pred_foldl (fun p => p.1 = recKey p.2) _ _
  · intro m q hq hm
    exact aSet_pred _ _ _ _ hm (selfKeyed_buildBatchMap batch q hq)
  · apply pred_foldl (fun p => p.1 = recKey p.2) prev _
    · intro m r _ hm
      exact aSet_pred _ _ _ _ hm rfl
    · intro p hp; simp at hp

/-- A concrete sales record with the given product id, date and quantities,
used by the closed examples below. -/
def mkRec (pid date : String) (q inv : ℚ) : SalesRecord :=
  ⟨pid, pid, pid, pid, date, q, inv⟩

/-- C1: `addRecords` first aggregates the uploaded batch by the key
`productId + "_" + date`, summing `salesQty` and `inventoryQty` of rows that
share a key, and then writes each aggregated record into the persisted map
by the same key, where a key collision makes the new record entirely replace
the old one.  In particular two batch rows with quantities 3 and 2 merge to
a single record with `salesQty = 5`, and uploading `salesQty = 9` over a
persisted `salesQty = 5` leaves 9, not 14. -/
theorem C1_addRecords_aggregate_then_overwrite :
    (∀ (batch : List SalesRecord) (k : String),
      (aGet (buildBatchMap batch) k = none ↔
        batch.filter (fun r => recKey r == k) = []) ∧
      (∀ v, aGet (buildBatchMap batch) k = some v →
        v.salesQty =
          ((batch.filter (fun r => recKey r == k)).map
            (fun r => r.salesQty)).sum ∧
        v.inventoryQty =
          ((batch.filter (fun r => recKey r == k)).map
            (fun r => r.inventoryQty)).sum))
    ∧
    (∀ (prev batch : List SalesRecord) (k : String),
      k ∈ batch.map recKey →
      aGet (mergeIntoExisting (existingMapOf prev) (buildBatchMap batch)) k =
        aGet (buildBatchMap batch) k)
    ∧
    (addRecords [] [mkRec "A" "2026-01-01" 3 0, mkRec "A" "2026-01-01" 2 0] =
      [mkRec "A" "2026-01-01" 5 0])
    ∧
    (addRecords [mkRec "A" "2026-01-01" 5 0] [mkRec "A" "2026-01-01" 9 0] =
      [mkRec "A" "2026-01-01" 9 0]) := by
  refine ⟨?_, ?_, ?_, ?_⟩
  · intro batch k
    rw [buildBatchMap, aGet_foldl_batchStep]
    simp only [aGet_nil]
    cases hf : batch.filter (fun r => recKey r == k) with
    | nil => simp
    | cons r0 ms =>
      refine ⟨by simp, ?_⟩
      intro v hv
      simp only [Option.some.injEq] at hv
      rw [← hv, foldl_combineBatch_salesQty, foldl_combineBatch_inventoryQty]
      simp
  · intro prev batch k hk
    rw [aGet_mergeIntoExisting _ _ _ (aKeys_nodup_buildBatchMap batch)]
    have hs : (aGet (buildBatchMap batch) k).isSome :=
      (aGet_isSome_iff_mem_aKeys _ _).mpr
        ((mem_aKeys_buildBatchMap batch k).mpr hk)
    obtain ⟨v, hv⟩ := Option.isSome_iff_exists.mp hs
    rw [hv]
  · have e1 : addRecords []
        [mkRec "A" "2026-01-01" 3 0, mkRec "A" "2026-01-01" 2 0] =
        [⟨"A", "A", "A", "A", "2026-01-01", 3 + 2, 0 + 0⟩] := rfl
    rw [e1]
    norm_num [mkRec]
  · rfl

/-- Witness for C1 at concrete inputs: the empty-filter characterisation at
an absent key, and the overwrite of a persisted record by a batch record
with the same key. -/
theorem C1_addRecords_aggregate_then_overwrite_witness :
    (aGet (buildBatchMap [mkRec "A" "2026-01-01" 3 0]) "B" = none ↔
      [mkRec "A" "2026-01-01" 3 0].filter (fun r => recKey r == "B") = []) ∧
    aGet (mergeIntoExisting (existingMapOf [mkRec "A" "2026-01-01" 5 0])
        (buildBatchMap [mkRec "A" "2026-01-01" 9 0])) "A_2026-01-01" =
      aGet (buildBatchMap [mkRec "A" "2026-01-01" 9 0]) "A_2026-01-01" :=
  ⟨(C1_addRecords_aggregate_then_overwrite.1
      [mkRec "A" "2026-01-01" 3 0] "B").1,
   C1_addRecords_aggregate_then_overwrite.2.1
      [mkRec "A" "2026-01-01" 5 0] [mkRec "A" "2026-01-01" 9 0]
      "A_2026-01-01" (by decide)⟩

/-- C10: the merge is a frame operation: the merged list has pairwise
distinct merge keys and is sorted by ascending date; every persisted record
whose key is not among the batch's keys survives unchanged; and every
record of the merged result is either a persisted record or carries a key
of the uploaded batch. -/
theorem C10_merge_frame (prev batch : List SalesRecord) :
    ((addRecords prev batch).map recKey).Nodup ∧
    List.Sorted dateLe (addRecords prev batch) ∧
    ((prev.map recKey).Nodup →
      ∀ r ∈ prev, recKey r ∉ batch.map recKey → r ∈ addRecords prev batch) ∧
    (∀ r2 ∈ addRecords prev batch,
      r2 ∈ prev ∨ recKey r2 ∈ batch.map recKey) := by
  have hbn := aKeys_nodup_buildBatchMap batch
  have hmn := aKeys_nodup_merged prev batch
  have hsk := selfKeyed_merged prev batch
  have hperm : (addRecords prev batch).Perm
      (aVals (mergeIntoExisting (existingMapOf prev) (buildBatchMap batch))) :=
    List.perm_insertionSort dateLe _
  refine ⟨?_, ?_, ?_, ?_⟩
  · have hmap : (aVals (mergeIntoExisting (existingMapOf prev)
        (buildBatchMap batch))).map recKey =
        aKeys (mergeIntoExisting (existingMapOf prev) (buildBatchMap batch)) := by
      simp only [aVals, aKeys, List.map_map]
      apply List.map_congr_left
      intro p hp
      exact (hsk p hp).symm
    exact (hperm.map recKey).nodup_iff.mpr (by rw [hmap]; exact hmn)
  · exact List.sorted_insertionSort dateLe _
  · intro hpn r hr hnk
    have h1 : aGet (existingMapOf prev) (recKey r) = some r := by
      rw [aGet_existingMapOf]
      exact lastWith_of_nodup prev r hpn hr
    have h2 : aGet (buildBatchMap batch) (recKey r) = none := by
      rw [← Option.not_isSome_iff_eq_none, aGet_isSome_iff_mem_aKeys,
        mem_aKeys_buildBatchMap]
      exact hnk
    have h3 : aGet (mergeIntoExisting (existingMapOf prev)
        (buildBatchMap batch)) (recKey r) = some r := by
      rw [aGet_mergeIntoExisting _ _ _ hbn, h2]
      exact h1
    exact hperm.mem_iff.mpr (mem_aVals_of_aGet _ _ _ h3)
  · intro r2 hr2
    have h4 := hperm.mem_iff.mp hr2
    obtain ⟨k, hk⟩ := exists_key_of_mem_aVals _ _ h4
    have hk1 : k = recKey r2 := hsk (k, r2) hk
    have h5 : aGet (mergeIntoExisting (existingMapOf prev)
        (buildBatchMap batch)) k = some r2 :=
      aGet_eq_some_of_mem_nodup _ _ _ hmn hk
    rw [aGet_mergeIntoExisting _ _ _ hbn] at h5
    cases hbg : aGet (buildBatchMap batch) k with
    | some v =>
      right
      rw [← hk1, ← mem_aKeys_buildBatchMap]
      exact (aGet_isSome_iff_mem_aKeys _ _).mp (by rw [hbg]; rfl)
    | none =>
      left
      rw [hbg] at h5
      rw [aGet_existingMapOf] at h5
      exact (lastWith_mem prev k r2 h5).1

/-- Witness for C10: a persisted record whose key is outside the uploaded
batch survives a concrete merge. -/
theorem C10_merge_frame_witness :
    mkRec "B" "2026-01-02" 1 0 ∈
      addRecords [mkRec "A" "2026-01-01" 5 0, mkRec "B" "2026-01-02" 1 0]
        [mkRec "A" "2026-01-01" 9 0] :=
  (C10_merge_frame [mkRec "A" "2026-01-01" 5 0, mkRec "B" "2026-01-02" 1 0]
      [mkRec "A" "2026-01-01" 9 0]).2.2.1 (by decide)
    (mkRec "B" "2026-01-02" 1 0)
    (List.mem_cons_of_mem _ (List.mem_cons_self _ _)) (by decide)

/-! ## String helpers

All string manipulation is computed structurally on the underlying character
list, so that every definition kernel-reduces on concrete inputs. -/

/-- JS `String.prototype.trim` (ASCII whitespace suffices for the data this
code handles). -/
def trimStr (s : String) : String :=
  ⟨((s.data.dropWhile Char.isWhitespace).reverse.dropWhile
      Char.isWhitespace).reverse⟩

/-- ASCII lower-casing (JS `toLowerCase`; the Korean keyword literals are
unaffected by case). -/
def lowerStr (s : String) : String := ⟨s.data.map Char.toLower⟩

/-- Substring occurrence test on character lists. -/
def hasSubChars : List Char → List Char → Bool
  | [], pat => pat.isEmpty
  | c :: t, pat => pat.isPrefixOf (c :: t) || hasSubChars t pat

/-- `pat` occurs as a substring of `s`: the form to which the source's
literal-alternation regex tests compile. -/
def strHas (s pat : String) : Bool := hasSubChars s.data pat.data

/-- `s` starts with `pat` (an anchored regex `/^.../`). -/
def strStarts (s pat : String) : Bool := pat.data.isPrefixOf s.data

/-- The digit characters of `s` (JS `replace(/[^0-9]/g, '')`). -/
def onlyDigits (s : String) : String := ⟨s.data.filter Char.isDigit⟩

/-- Strip all whitespace and lower-case: the master/inbound parsers' header
normalization `clean` (excelParser.ts line 237). -/
def cleanStr (s : String) : String :=
  ⟨(s.data.filter (fun c => !c.isWhitespace)).map Char.toLower⟩

/-- `substring`-style slice by character positions. -/
def subStr (s : String) (a b : Nat) : String := ⟨(s.data.take b).drop a⟩

/-- The natural number denoted by a digit string (helper for date
parsing). -/
def natOfDigits (l : List Char) : Nat :=
  l.foldl (fun acc c => acc * 10 + (c.toNat - 48)) 0

/-! ## ProductAggregator: `getProductSummary` (analytics.ts lines 108-175) -/

/-- `ProductSummary` (analytics.ts lines 18-28).  `dailySalesMap` is a plain
object used as a date → quantity dictionary. -/
structure ProductSummary where
  productId : String
  skuId : String
  productName : String
  barcode : String
  imageUrl : Option String
  cumulativeSales : ℚ
  coupangInventory : ℚ
  hqInventory : ℚ
  dailySalesMap : JMap ℚ
deriving DecidableEq, Repr, Inhabited

/-- Default-zero read of a daily sales map (`map[date] || 0`). -/
def dmGet (m : JMap ℚ) (d : String) : ℚ := (aGet m d).getD 0

/-- `map[date] = (map[date] || 0) + q`. -/
def dmAdd (m : JMap ℚ) (d : String) (q : ℚ) : JMap ℚ :=
  aSet m d (dmGet m d + q)

/-- The latest of a list of date strings: the source sorts the list and
takes its last element (`dates.sort(); dates[dates.length - 1]`). -/
def latestDateOf (dates : List String) : String :=
  (dates.insertionSort (fun a b : String => a ≤ b)).getLastD ""

/-- The normalized barcode of a sales record (analytics.ts line 143): an
untruthy (empty) barcode becomes `"-"`, any other barcode is trimmed. -/
def normBarcode (r : SalesRecord) : String :=
  if r.barcode = "" then "-" else trimStr r.barcode

/-- The summary seeded from one master row (analytics.ts lines 116-127):
keyed by the trimmed barcode, inventory fields zeroed, `hqInventory`
copied (`m.hqInventory || 0`). -/
def seedOfMaster (m : ProductMaster) : ProductSummary :=
  ⟨trimStr m.barcode, m.skuId, m.skuName, trimStr m.barcode, m.imageUrl,
    0, 0, m.hqInventory.getD 0, []⟩

/-- Seeding of the barcode → summary map from the master data
(lines 113-128); master rows with an untruthy barcode are skipped. -/
def summarySeed (masterData : List ProductMaster) : JMap ProductSummary :=
  masterData.foldl
    (fun acc m =>
      if m.barcode = "" then acc
      else aSet acc (trimStr m.barcode) (seedOfMaster m))
    []

/-- The ad-hoc summary created for a sales record with no master match
(lines 146-159); `bc` is the normalized barcode under which it is keyed. -/
def orphanOf (bc : String) (r : SalesRecord) : ProductSummary :=
  ⟨(if r.barcode = "" then r.productId else r.barcode),
   (if r.skuId = "" then r.productId else r.skuId),
   r.productName, bc, none, 0, 0, 0, []⟩

/-- The field updates applied to a summary for one sales record
(lines 162-171): `cumulativeSales` always accumulates, `coupangInventory`
accumulates only when the record is dated on the globally latest date, and
the daily map accumulates per date. -/
def accumSale (latest : String) (s : ProductSummary) (r : SalesRecord) :
    ProductSummary :=
  { s with
    cumulativeSales := s.cumulativeSales + r.salesQty,
    coupangInventory :=
      s.coupangInventory + (if r.date = latest then r.inventoryQty else 0),
    dailySalesMap := dmAdd s.dailySalesMap r.date r.salesQty }

/-- One iteration of the sales aggregation loop (lines 141-172). -/
def applySale (latest : String) (m : JMap ProductSummary) (r : SalesRecord) :
    JMap ProductSummary :=
  match aGet m (normBarcode r) with
  | some s => aSet m (normBarcode r) (accumSale latest s r)
  | none => aSet m (normBarcode r) (accumSale latest (orphanOf (normBarcode r) r) r)

/-- `getProductSummary` (analytics.ts lines 108-175).  The source's early
returns for an empty or dateless record set coincide with folding the empty
filtered list, so the embedding is the single fold. -/
def getProductSummary (records : List SalesRecord)
    (masterData : List ProductMaster) : List ProductSummary :=
  let summaryMap := summarySeed masterData
  let validRecords := records.filter (fun r => r.date != "")
  let latestDateStr := latestDateOf (validRecords.map (fun r => r.date))
  aVals (validRecords.foldl (applySale latestDateStr) summaryMap)

/-! ### Characterization of the sales aggregation -/

theorem dmGet_dmAdd_self (m : JMap ℚ) (d : String) (q : ℚ) :
    dmGet (dmAdd m d q) d = dmGet m d + q := by
  unfold dmGet dmAdd
  rw [aGet_aSet_self]
  rfl

theorem dmGet_dmAdd_ne (m : JMap ℚ) (d d' : String) (q : ℚ) (h : d' ≠ d) :
    dmGet (dmAdd m d q) d' = dmGet m d' := by
  unfold dmGet dmAdd
  rw [aGet_aSet_ne _ _ _ _ h]

theorem aGet_foldl_applySale (rs : List SalesRecord) (latest : String)
    (m : JMap ProductSummary) (k : String) :
    aGet (rs.foldl (applySale latest) m) k =
      match aGet m k with
      | some s =>
          some ((rs.filter (fun r => normBarcode r == k)).foldl
            (accumSale latest) s)
      | none =>
          match rs.filter (fun r => normBarcode r == k) with
          | [] => none
          | r0 :: ms =>
              some (ms.foldl (accumSale latest)
                (accumSale latest (orphanOf k r0) r0)) := by
  induction rs generalizing m with
  | nil => rcases hg : aGet m k with _ | e <;> simp [hg]
  | cons r rs ih =>
    rw [List.foldl_cons, List.filter_cons]
    by_cases hk : normBarcode r = k
    · have hkb : (normBarcode r == k) = true := by simpa using hk
      cases hg : aGet m k with
      | some s =>
        have step : aGet (applySale latest m r) k =
            some (accumSale latest s r) := by
          unfold applySale
          rw [hk, hg]
          exact aGet_aSet_self _ _ _
        rw [ih, step]
        simp [hkb]
      | none =>
        have step : aGet (applySale latest m r) k =
            some (accumSale latest (orphanOf k r) r) := by
          unfold applySale
          rw [hk, hg]
          exact aGet_aSet_self _ _ _
        rw [ih, step]
        simp [hkb]
    · have hkb : (normBarcode r == k) = false := by simpa using hk
      have step : aGet (applySale latest m r) k = aGet m k := by
        unfold applySale
        have hne : k ≠ normBarcode r := fun he => hk he.symm
        cases aGet m (normBarcode r) with
        | some s => exact aGet_aSet_ne _ _ _ _ hne
        | none => exact aGet_aSet_ne _ _ _ _ hne
      rw [ih, step]
      simp [hkb]

theorem foldl_accumSale_cumulative (ms : List SalesRecord) (latest : String)
    (s : ProductSummary) :
    (ms.foldl (accumSale latest) s).cumulativeSales =
      s.cumulativeSales + (ms.map (fun r => r.salesQty)).sum := by
  induction ms generalizing s with
  | nil => simp
  | cons r ms ih =>
    rw [List.foldl_cons, ih]
    simp [accumSale]
    ring

theorem foldl_accumSale_coupang (ms : List SalesRecord) (latest : String)
    (s : ProductSummary) :
    (ms.foldl (accumSale latest) s).coupangInventory =
      s.coupangInventory +
        ((ms.filter (fun r => r.date == latest)).map
          (fun r => r.inventoryQty)).sum := by
  induction ms generalizing s with
  | nil => simp
  | cons r ms ih =>
    rw [List.foldl_cons, ih, List.filter_cons]
    by_cases hd : r.date = latest
    · simp [accumSale, hd]
      ring
    · simp [accumSale, hd]

theorem foldl_accumSale_daily (ms : List SalesRecord) (latest : String)
    (s : ProductSummary) (d : String) :
    dmGet (ms.foldl (accumSale latest) s).dailySalesMap d =
      dmGet s.dailySalesMap d +
        ((ms.filter (fun r => r.date == d)).map (fun r => r.salesQty)).sum := by
  induction ms generalizing s with
  | nil => simp
  | cons r ms ih =>
    rw [List.foldl_cons, ih, List.filter_cons]
    by_cases hd : r.date = d
    · have : dmGet (accumSale latest s r).dailySalesMap d =
          dmGet s.dailySalesMap d + r.salesQty := by
        simp only [accumSale]
        rw [← hd, dmGet_dmAdd_self]
      rw [this]
      simp [hd]
      ring
    · have : dmGet (accumSale latest s r).dailySalesMap d =
          dmGet s.dailySalesMap d := by
        simp only [accumSale]
        exact dmGet_dmAdd_ne _ _ _ _ (fun he => hd he.symm)
      rw [this]
      simp [hd]

theorem foldl_accumSale_barcode (ms : List SalesRecord) (latest : String)
    (s : ProductSummary) :
    (ms.foldl (accumSale latest) s).barcode = s.barcode := by
  induction ms generalizing s with
  | nil => rfl
  | cons r ms ih => rw [List.foldl_cons, ih]; rfl

theorem mem_of_aGet_eq_some {α : Type} (m : JMap α) (k : String) (v : α)
    (h : aGet m k = some v) : (k, v) ∈ m := by
  induction m with
  | nil => simp [aGet_nil] at h
  | cons p t ih =>
    rw [aGet_cons] at h
    by_cases hp : p.1 = k
    · rw [if_pos hp] at h
      simp only [Option.some.injEq] at h
      have hkv : (k, v) = p := by rw [← hp, ← h]
      rw [hkv]
      exact List.mem_cons_self p t
    · rw [if_neg hp] at h
      exact List.mem_cons_of_mem _ (ih h)

theorem summarySeed_zeroed (masterData : List ProductMaster) :
    ∀ p ∈ summarySeed masterData,
      p.2.cumulativeSales = 0 ∧ p.2.coupangInventory = 0 ∧
      p.2.dailySalesMap = [] ∧ p.2.barcode = p.1 := by
  unfold summarySeed
  refine pred_foldl
    (fun (p : String × ProductSummary) =>
      p.2.cumulativeSales = 0 ∧ p.2.coupangInventory = 0 ∧
      p.2.dailySalesMap = [] ∧ p.2.barcode = p.1) masterData _ ?_ [] ?_
  · intro acc m _ hacc
    by_cases hb : m.barcode = ""
    · simpa [hb] using hacc
    · simp only [hb, if_false]
      exact aSet_pred _ _ _ _ hacc ⟨rfl, rfl, rfl, rfl⟩
  · intro p hp; simp at hp

theorem aKeys_nodup_summarySeed (masterData : List ProductMaster) :
    (aKeys (summarySeed masterData)).Nodup := by
  apply aKeys_nodup_foldl masterData _
  · intro acc m hacc
    by_cases hb : m.barcode = ""
    · simpa [hb] using hacc
    · simp only [hb, if_false]
      exact aKeys_nodup_aSet _ _ _ hacc
  · simp [aKeys]

theorem aKeys_nodup_summaryFold (records : List SalesRecord)
    (masterData : List ProductMaster) (latest : String) :
    (aKeys (records.foldl (applySale latest) (summarySeed masterData))).Nodup := by
  apply aKeys_nodup_foldl records _
  · intro m r hm
    unfold applySale
    cases aGet m (normBarcode r) <;> exact aKeys_nodup_aSet _ _ _ hm
  · exact aKeys_nodup_summarySeed masterData

theorem selfKeyed_summaryFold (records : List SalesRecord)
    (masterData : List ProductMaster) (latest : String) :
    ∀ p ∈ records.foldl (applySale latest) (summarySeed masterData),
      p.2.barcode = p.1 := by
  refine pred_foldl (fun (p : String × ProductSummary) => p.2.barcode = p.1)
    records _ ?_ _ ?_
  · intro m r _ hm
    unfold applySale
    cases hg : aGet m (normBarcode r) with
    | some s =>
      have hs : s.barcode = normBarcode r := hm _ (mem_of_aGet_eq_some _ _ _ hg)
      exact aSet_pred _ _ _ _ hm (by simpa [accumSale] using hs)
    | none =>
      exact aSet_pred _ _ _ _ hm (by simp [accumSale, orphanOf])
  · intro p hp
    exact (summarySeed_zeroed masterData p hp).2.2.2

/-- C4: every `ProductSummary` produced by `getProductSummary` has
`cumulativeSales` equal to the sum of `salesQty` over all of that barcode's
records regardless of date, `coupangInventory` equal to the sum of
`inventoryQty` only over that barcode's records dated on the latest date
present in the full record set (a snapshot, not a sum over all dates), and
`dailySalesMap[d]` equal to the sum of `salesQty` over that barcode's
records dated `d`. -/
theorem C4_getProductSummary_sums (records : List SalesRecord)
    (masterData : List ProductMaster) :
    ∀ s ∈ getProductSummary records masterData,
      s.cumulativeSales =
        (((records.filter (fun r => r.date != "")).filter
            (fun r => normBarcode r == s.barcode)).map
          (fun r => r.salesQty)).sum ∧
      s.coupangInventory =
        ((((records.filter (fun r => r.date != "")).filter
            (fun r => normBarcode r == s.barcode)).filter
            (fun r => r.date == latestDateOf
              ((records.filter (fun r => r.date != "")).map
                (fun r => r.date)))).map (fun r => r.inventoryQty)).sum ∧
      (∀ d, dmGet s.dailySalesMap d =
        ((((records.filter (fun r => r.date != "")).filter
            (fun r => normBarcode r == s.barcode)).filter
            (fun r => r.date == d)).map (fun r => r.salesQty)).sum) := by
  intro s hs
  set valid := records.filter (fun r => r.date != "") with hvalid
  set latest := latestDateOf (valid.map (fun r => r.date)) with hlatest
  have hs' : s ∈ aVals (valid.foldl (applySale latest) (summarySeed masterData)) := hs
  obtain ⟨k, hk⟩ := exists_key_of_mem_aVals _ _ hs'
  have hbk : s.barcode = k :=
    selfKeyed_summaryFold valid masterData latest (k, s) hk
  have hnd := aKeys_nodup_summaryFold valid masterData latest
  have hget : aGet (valid.foldl (applySale latest) (summarySeed masterData)) k
      = some s := aGet_eq_some_of_mem_nodup _ _ _ hnd hk
  rw [aGet_foldl_applySale] at hget
  rw [hbk]
  cases hseed : aGet (summarySeed masterData) k with
  | some s0 =>
    rw [hseed] at hget
    simp only [Option.some.injEq] at hget
    obtain ⟨hz1, hz2, hz3, _⟩ := summarySeed_zeroed masterData (k, s0)
      (mem_of_aGet_eq_some _ _ _ hseed)
    refine ⟨?_, ?_, ?_⟩
    · rw [← hget, foldl_accumSale_cumulative, hz1, zero_add]
    · rw [← hget, foldl_accumSale_coupang, hz2, zero_add]
    · intro d
      rw [← hget, foldl_accumSale_daily, hz3]
      simp [dmGet, aGet_nil]
  | none =>
    rw [hseed] at hget
    cases hf : valid.filter (fun r => normBarcode r == k) with
    | nil =>
      rw [hf] at hget
      cases hget
    | cons r0 ms =>
      rw [hf] at hget
      simp only [Option.some.injEq] at hget
      refine ⟨?_, ?_, ?_⟩
      · rw [← hget, foldl_accumSale_cumulative]
        simp [accumSale, orphanOf]
      · rw [← hget, foldl_accumSale_coupang, List.filter_cons]
        by_cases hd : r0.date = latest
        · simp [accumSale, orphanOf, hd]
        · simp [accumSale, orphanOf, hd]
      · intro d
        rw [← hget, foldl_accumSale_daily, List.filter_cons]
        by_cases hd : r0.date = d
        · have : dmGet (accumSale latest (orphanOf k r0) r0).dailySalesMap d =
              r0.salesQty := by
            simp only [accumSale, orphanOf]
            rw [← hd, dmGet_dmAdd_self]
            simp [dmGet, aGet_nil]
          rw [this]
          simp [hd]
        · have : dmGet (accumSale latest (orphanOf k r0) r0).dailySalesMap d =
              0 := by
            simp only [accumSale, orphanOf]
            rw [dmGet_dmAdd_ne _ _ _ _ (fun he => hd he.symm)]
            simp [dmGet, aGet_nil]
          rw [this]
          simp [hd]

/-- Witness for C4: the sums hold for the head summary of a concrete
one-record data set. -/
theorem C4_getProductSummary_sums_witness :
    (getProductSummary [mkRec "A" "2026-01-01" 3 1] []).head!.cumulativeSales =
        ((([mkRec "A" "2026-01-01" 3 1].filter (fun r => r.date != "")).filter
            (fun r => normBarcode r ==
              (getProductSummary [mkRec "A" "2026-01-01" 3 1] []).head!.barcode)).map
          (fun r => r.salesQty)).sum ∧
      (getProductSummary [mkRec "A" "2026-01-01" 3 1] []).head!.coupangInventory =
        (((([mkRec "A" "2026-01-01" 3 1].filter (fun r => r.date != "")).filter
            (fun r => normBarcode r ==
              (getProductSummary [mkRec "A" "2026-01-01" 3 1] []).head!.barcode)).filter
            (fun r => r.date == latestDateOf
              (([mkRec "A" "2026-01-01" 3 1].filter (fun r => r.date != "")).map
                (fun r => r.date)))).map (fun r => r.inventoryQty)).sum ∧
      (∀ d, dmGet (getProductSummary [mkRec "A" "2026-01-01" 3 1] []).head!.dailySalesMap d =
        (((([mkRec "A" "2026-01-01" 3 1].filter (fun r => r.date != "")).filter
            (fun r => normBarcode r ==
              (getProductSummary [mkRec "A" "2026-01-01" 3 1] []).head!.barcode)).filter
            (fun r => r.date == d)).map (fun r => r.salesQty)).sum) :=
  C4_getProductSummary_sums [mkRec "A" "2026-01-01" 3 1] []
    (getProductSummary [mkRec "A" "2026-01-01" 3 1] []).head!
    (List.head!_mem_self (by decide))

/-- C7: the sales-to-master join is invariant under surrounding whitespace
in barcodes: a master row and a sales record whose barcodes agree after
trimming accumulate into one single `ProductSummary`, whose key (barcode)
and `productId` are the trimmed barcode. -/
theorem C7_barcode_trim_join (m : ProductMaster) (r : SalesRecord)
    (hm : m.barcode ≠ "") (hr : r.barcode ≠ "") (hd : r.date ≠ "")
    (heq : trimStr m.barcode = trimStr r.barcode) :
    (getProductSummary [r] [m]).length = 1 ∧
    ∀ s ∈ getProductSummary [r] [m],
      s.barcode = trimStr r.barcode ∧ s.productId = trimStr r.barcode ∧
      s.cumulativeSales = r.salesQty := by
  have hvalid : [r].filter (fun x => x.date != "") = [r] := by simp [hd]
  have key : getProductSummary [r] [m] =
      aVals ([r].foldl (applySale (latestDateOf [r.date])) (summarySeed [m])) := by
    unfold getProductSummary
    rw [hvalid]
    rfl
  have hseed : summarySeed [m] = [(trimStr m.barcode, seedOfMaster m)] := by
    unfold summarySeed
    rw [List.foldl_cons, List.foldl_nil, if_neg hm]
    rfl
  have hnb : normBarcode r = trimStr r.barcode := by
    unfold normBarcode
    rw [if_neg hr]
  have hget : aGet (summarySeed [m]) (normBarcode r) = some (seedOfMaster m) := by
    rw [hnb, ← heq, hseed, aGet_cons]
    simp
  have happ : [r].foldl (applySale (latestDateOf [r.date])) (summarySeed [m]) =
      aSet (summarySeed [m]) (normBarcode r)
        (accumSale (latestDateOf [r.date]) (seedOfMaster m) r) := by
    rw [List.foldl_cons, List.foldl_nil]
    unfold applySale
    rw [hget]
  have haset : aSet (summarySeed [m]) (normBarcode r)
      (accumSale (latestDateOf [r.date]) (seedOfMaster m) r) =
      [(trimStr m.barcode,
        accumSale (latestDateOf [r.date]) (seedOfMaster m) r)] := by
    rw [hseed, hnb, ← heq]
    unfold aSet
    simp [aGet_cons]
  constructor
  · rw [key, happ, haset]
    rfl
  · intro s hs
    rw [key, happ, haset] at hs
    simp only [aVals, List.map_cons, List.map_nil, List.mem_singleton] at hs
    rw [hs]
    refine ⟨by simp [accumSale, seedOfMaster, heq], by simp [accumSale, seedOfMaster, heq], ?_⟩
    simp [accumSale, seedOfMaster]

/-- A concrete master record with the given barcode and name, used by the
closed examples below. -/
def mkMaster (bc name : String) : ProductMaster :=
  ⟨bc, name, name, none, none, none, none⟩

/-- Witness for C7 at the claim's concrete barcodes: a master row with
barcode " 123 " and a sales record with barcode "123" join into one
summary keyed by the trimmed barcode. -/
theorem C7_barcode_trim_join_witness :
    (getProductSummary [mkRec "123" "2026-01-01" 4 0]
      [mkMaster " 123 " "N"]).length = 1 ∧
    ∀ s ∈ getProductSummary [mkRec "123" "2026-01-01" 4 0]
        [mkMaster " 123 " "N"],
      s.barcode = trimStr (mkRec "123" "2026-01-01" 4 0).barcode ∧
      s.productId = trimStr (mkRec "123" "2026-01-01" 4 0).barcode ∧
      s.cumulativeSales = (mkRec "123" "2026-01-01" 4 0).salesQty :=
  C7_barcode_trim_join (mkMaster " 123 " "N") (mkRec "123" "2026-01-01" 4 0)
    (by decide) (by decide) (by decide) (by decide)

/-! ## ProductAggregator: `groupProductsByName` (analytics.ts lines 187-222) -/

/-- `ProductGroup` (analytics.ts lines 177-185). -/
structure ProductGroup where
  groupName : String
  imageUrl : Option String
  totalCumulativeSales : ℚ
  totalCoupangInventory : ℚ
  totalHqInventory : ℚ
  dailySalesMap : JMap ℚ
  items : List ProductSummary
deriving DecidableEq, Repr, Inhabited

/-- JS truthiness of an optional string (`!group.imageUrl`). -/
def optTruthy : Option String → Bool
  | some s => s != ""
  | none => false

/-- Merge one summary's daily map into a group's daily map
(lines 216-218). -/
def dmMerge (g m : JMap ℚ) : JMap ℚ :=
  m.foldl (fun acc p => dmAdd acc p.1 p.2) g

/-- Fold one summary into its group (lines 203-218). -/
def addToGroup (g : ProductGroup) (item : ProductSummary) : ProductGroup :=
  { g with
    items := g.items ++ [item],
    imageUrl :=
      if !optTruthy g.imageUrl && optTruthy item.imageUrl then item.imageUrl
      else g.imageUrl,
    totalCumulativeSales := g.totalCumulativeSales + item.cumulativeSales,
    totalCoupangInventory := g.totalCoupangInventory + item.coupangInventory,
    totalHqInventory := g.totalHqInventory + item.hqInventory,
    dailySalesMap := dmMerge g.dailySalesMap item.dailySalesMap }

/-- The group freshly created for a product name (lines 192-201). -/
def newGroup (item : ProductSummary) : ProductGroup :=
  ⟨item.productName, item.imageUrl, 0, 0, 0, [], []⟩

/-- One iteration of the grouping loop (lines 190-219). -/
def groupStep (gs : JMap ProductGroup) (item : ProductSummary) :
    JMap ProductGroup :=
  match aGet gs item.productName with
  | some g => aSet gs item.productName (addToGroup g item)
  | none => aSet gs item.productName (addToGroup (newGroup item) item)

/-- `groupProductsByName` (analytics.ts lines 187-222). -/
def groupProductsByName (items : List ProductSummary) : List ProductGroup :=
  aVals (items.foldl groupStep [])

/-! ## RiskForecastEngine: `getInventoryRiskAnalysis`
(analytics.ts lines 357-478) -/

/-- The risk classification (analytics.ts line 367). -/
inductive RiskStatus where
  | Safe
  | Warning
  | Danger
deriving DecidableEq, Repr, Inhabited

/-- Status assignment (lines 417-423): `Danger` when the balance is
negative, else `Warning` when it is below fourteen weighted daily averages
(two weeks of supply), else `Safe`. -/
def statusOf (balance w : ℚ) : RiskStatus :=
  if balance < 0 then .Danger
  else if balance < w * 14 then .Warning
  else .Safe

/-- The per-variant breakdown entry pushed into `InventoryRisk.items`
(lines 436-470).  The source displays `item.optionName || item.barcode`;
`ProductSummary` has no `optionName` field, so the barcode is used. -/
structure ItemRisk where
  productName : String
  imageUrl : Option String
  currentInventory : ℚ
  inboundQty : ℚ
  avg7Days : ℚ
  prevDaySales : ℚ
  weightedDailyAvg : ℚ
  expectedDemand7Days : ℚ
  expectedBalance7Days : ℚ
  status : RiskStatus
  barcode : String
deriving DecidableEq, Repr, Inhabited

/-- `InventoryRisk` (analytics.ts lines 357-369). -/
structure InventoryRisk where
  productName : String
  imageUrl : Option String
  currentInventory : ℚ
  inboundQty : ℚ
  avg7Days : ℚ
  prevDaySales : ℚ
  weightedDailyAvg : ℚ
  expectedDemand7Days : ℚ
  expectedBalance7Days : ℚ
  status : RiskStatus
  items : List ItemRisk
deriving DecidableEq, Repr, Inhabited

/-- The child-item metrics (lines 436-470); inbound is fixed to 0 at item
level. -/
def itemRiskOf (recent7 : List String) (latest : String)
    (item : ProductSummary) : ItemRisk :=
  let prev := dmGet item.dailySalesMap latest
  let sum7 := recent7.foldl (fun acc d => acc + dmGet item.dailySalesMap d) 0
  let avg := sum7 / 7
  let w := (avg + prev) / 2
  let demand := w * 7
  let bal := (item.coupangInventory + 0) - demand
  ⟨item.barcode, item.imageUrl, item.coupangInventory, 0, avg, prev, w,
    demand, bal, statusOf bal w, item.barcode⟩

/-- The risk row computed for one product group (lines 393-472). -/
def riskOfGroup (recent7 : List String) (latest : String) (ibm : JMap ℚ)
    (p : ProductGroup) : InventoryRisk :=
  let prev := dmGet p.dailySalesMap latest
  let sum7 := recent7.foldl (fun acc d => acc + dmGet p.dailySalesMap d) 0
  let avg := sum7 / 7
  let w := (avg + prev) / 2
  let demand := w * 7
  let ib := (aGet ibm p.groupName).getD 0
  let bal := (p.totalCoupangInventory + ib) - demand
  ⟨p.groupName, p.imageUrl, p.totalCoupangInventory, ib, avg, prev, w,
    demand, bal, statusOf bal w, p.items.map (itemRiskOf recent7 latest)⟩

/-- The inbound quantities summed per product name (lines 387-391). -/
def inboundMapOf (inboundData : List InboundRecord) : JMap ℚ :=
  inboundData.foldl
    (fun m r => aSet m r.productName ((aGet m r.productName).getD 0 + r.inboundQty))
    []

/-- The sorted distinct dates of the data set
(`Array.from(new Set(records.map(r => r.date))).sort()`, line 375).  The
set preserves first occurrences and the sort orders them; deduplicating and
sorting produce the same list. -/
def distinctDatesSorted (records : List SalesRecord) : List String :=
  ((records.map (fun r => r.date)).dedup).insertionSort
    (fun a b : String => a ≤ b)

/-- The last (up to) seven distinct dates
(`dates.slice(Math.max(0, dates.length - 7))`, line 380). -/
def recent7Of (dates : List String) : List String :=
  dates.drop (dates.length - 7)

/-- `getInventoryRiskAnalysis` (analytics.ts lines 371-478). -/
def getInventoryRiskAnalysis (records : List SalesRecord)
    (masterData : List ProductMaster) (inboundData : List InboundRecord) :
    List InventoryRisk :=
  if records.isEmpty then []
  else
    let dates := distinctDatesSorted records
    if dates.isEmpty then []
    else
      let latestDate := dates.getLastD ""
      let recent7Days := recent7Of dates
      let products := groupProductsByName (getProductSummary records masterData)
      let ibm := inboundMapOf inboundData
      (products.map (riskOfGroup recent7Days latestDate ibm)).insertionSort
        (fun a b => a.expectedBalance7Days ≤ b.expectedBalance7Days)

theorem foldl_add_dmGet (ds : List String) (m : JMap ℚ) (a : ℚ) :
    ds.foldl (fun acc d => acc + dmGet m d) a = a + (ds.map (dmGet m)).sum := by
  induction ds generalizing a with
  | nil => simp
  | cons d ds ih =>
    rw [List.foldl_cons, ih]
    simp
    ring

theorem statusOf_danger_iff (b w : ℚ) : statusOf b w = .Danger ↔ b < 0 := by
  unfold statusOf
  split_ifs with h1 h2 <;> simp_all

theorem statusOf_warning_iff (b w : ℚ) :
    statusOf b w = .Warning ↔ 0 ≤ b ∧ b < w * 14 := by
  unfold statusOf
  split_ifs with h1 h2 <;> simp_all [not_lt, le_of_lt]

theorem statusOf_safe_iff (b w : ℚ) :
    statusOf b w = .Safe ↔ 0 ≤ b ∧ w * 14 ≤ b := by
  unfold statusOf
  split_ifs with h1 h2 <;> simp_all [not_lt]

/-- The claim's example group: seven distinct sale dates whose quantities
sum to 21, with 5 sold on the latest date. -/
def datesC2 : List String :=
  ["2026-01-01", "2026-01-02", "2026-01-03", "2026-01-04", "2026-01-05",
   "2026-01-06", "2026-01-07"]

/-- The example group record for the C2 computation. -/
def groupC2 : ProductGroup :=
  ⟨"G", none, 21, 10, 0,
    [("2026-01-01", 2), ("2026-01-02", 3), ("2026-01-03", 0),
     ("2026-01-04", 1), ("2026-01-05", 4), ("2026-01-06", 6),
     ("2026-01-07", 5)], []⟩

/-- C2: `getInventoryRiskAnalysis` computes, per product group, `avg7Days`
as the group's summed sales over the last 7 distinct dates of the data set
divided by the constant 7, `prevDaySales` as the sales on the globally
latest date (0 if absent), `weightedDailyAvg = (avg7Days + prevDaySales)/2`,
`expectedDemand7Days = weightedDailyAvg * 7`,
`expectedBalance7Days = (currentInventory + inboundQty) - expectedDemand7Days`,
and classifies `Danger` when the balance is negative, else `Warning` when it
is below `weightedDailyAvg * 14`, else `Safe`; the example with 7 sale dates
summing to 21 and `prevDaySales = 5` gives `avg7Days = 3`,
`weightedDailyAvg = 4`, `expectedDemand7Days = 28`. -/
theorem C2_inventory_risk_formulas :
    (∀ (recent7 : List String) (latest : String) (ibm : JMap ℚ)
        (p : ProductGroup),
      (riskOfGroup recent7 latest ibm p).prevDaySales =
          dmGet p.dailySalesMap latest ∧
      (riskOfGroup recent7 latest ibm p).avg7Days =
          (recent7.map (dmGet p.dailySalesMap)).sum / 7 ∧
      (riskOfGroup recent7 latest ibm p).weightedDailyAvg =
          ((riskOfGroup recent7 latest ibm p).avg7Days +
            (riskOfGroup recent7 latest ibm p).prevDaySales) / 2 ∧
      (riskOfGroup recent7 latest ibm p).expectedDemand7Days =
          (riskOfGroup recent7 latest ibm p).weightedDailyAvg * 7 ∧
      (riskOfGroup recent7 latest ibm p).currentInventory =
          p.totalCoupangInventory ∧
      (riskOfGroup recent7 latest ibm p).inboundQty =
          (aGet ibm p.groupName).getD 0 ∧
      (riskOfGroup recent7 latest ibm p).expectedBalance7Days =
          (p.totalCoupangInventory +
            (riskOfGroup recent7 latest ibm p).inboundQty) -
            (riskOfGroup recent7 latest ibm p).expectedDemand7Days ∧
      ((riskOfGroup recent7 latest ibm p).status = RiskStatus.Danger ↔
          (riskOfGroup recent7 latest ibm p).expectedBalance7Days < 0) ∧
      ((riskOfGroup recent7 latest ibm p).status = RiskStatus.Warning ↔
          0 ≤ (riskOfGroup recent7 latest ibm p).expectedBalance7Days ∧
          (riskOfGroup recent7 latest ibm p).expectedBalance7Days <
            (riskOfGroup recent7 latest ibm p).weightedDailyAvg * 14) ∧
      ((riskOfGroup recent7 latest ibm p).status = RiskStatus.Safe ↔
          0 ≤ (riskOfGroup recent7 latest ibm p).expectedBalance7Days ∧
          (riskOfGroup recent7 latest ibm p).weightedDailyAvg * 14 ≤
            (riskOfGroup recent7 latest ibm p).expectedBalance7Days))
    ∧
    (∀ (records : List SalesRecord) (masterData : List ProductMaster)
        (inboundData : List InboundRecord) (r : InventoryRisk),
      r ∈ getInventoryRiskAnalysis records masterData inboundData →
      ∃ p ∈ groupProductsByName (getProductSummary records masterData),
        r = riskOfGroup (recent7Of (distinctDatesSorted records))
          ((distinctDatesSorted records).getLastD "")
          (inboundMapOf inboundData) p)
    ∧
    ((riskOfGroup datesC2 "2026-01-07" [] groupC2).avg7Days = 3 ∧
     (riskOfGroup datesC2 "2026-01-07" [] groupC2).prevDaySales = 5 ∧
     (riskOfGroup datesC2 "2026-01-07" [] groupC2).weightedDailyAvg = 4 ∧
     (riskOfGroup datesC2 "2026-01-07" [] groupC2).expectedDemand7Days = 28) := by
  refine ⟨?_, ?_, ?_⟩
  · intro recent7 latest ibm p
    refine ⟨rfl, ?_, rfl, rfl, rfl, rfl, rfl, ?_, ?_, ?_⟩
    · have h : (riskOfGroup recent7 latest ibm p).avg7Days =
          (recent7.foldl (fun acc d => acc + dmGet p.dailySalesMap d) 0) / 7 :=
        rfl
      rw [h, foldl_add_dmGet, zero_add]
    · exact statusOf_danger_iff _ _
    · exact statusOf_warning_iff _ _
    · exact statusOf_safe_iff _ _
  · intro records masterData inboundData r hr
    simp only [getInventoryRiskAnalysis] at hr
    split at hr
    · simp at hr
    · split at hr
      · simp at hr
      · have hr2 := (List.perm_insertionSort _ _).mem_iff.mp hr
        obtain ⟨p, hp, he⟩ := List.mem_map.mp hr2
        exact ⟨p, hp, he.symm⟩
  · refine ⟨?_, ?_, ?_, ?_⟩ <;>
      (simp [riskOfGroup, dmGet, aGet, datesC2, groupC2, statusOf] <;>
        norm_num)

/-- Witness for C2: the single risk row of a one-record data set arises
from a product group via `riskOfGroup` over the last distinct dates. -/
theorem C2_inventory_risk_formulas_witness :
    ∃ p ∈ groupProductsByName (getProductSummary [mkRec "A" "2026-01-01" 3 1] []),
      (getInventoryRiskAnalysis [mkRec "A" "2026-01-01" 3 1] [] []).head! =
        riskOfGroup (recent7Of (distinctDatesSorted [mkRec "A" "2026-01-01" 3 1]))
          ((distinctDatesSorted [mkRec "A" "2026-01-01" 3 1]).getLastD "")
          (inboundMapOf []) p :=
  C2_inventory_risk_formulas.2.1 [mkRec "A" "2026-01-01" 3 1] [] []
    (getInventoryRiskAnalysis [mkRec "A" "2026-01-01" 3 1] [] []).head!
    (List.head!_mem_self (by decide))

/-! ## Calendar arithmetic (the embedding of JavaScript `Date`)

Day numbers count days since 1970-01-01; the host timezone is modelled as
UTC.  Lean's `Int` division is floor division for the positive divisors
used here, which is what the standard civil-from-days algorithm needs. -/

/-- A civil calendar date. -/
structure CivilDate where
  year : Int
  month : Int
  day : Int
deriving DecidableEq, Repr, Inhabited

/-- Civil date of a day number. -/
def civilOfDays (z0 : Int) : CivilDate :=
  let z := z0 + 719468
  let era := z / 146097
  let doe := z - era * 146097
  let yoe := (doe - doe / 1460 + doe / 36524 - doe / 146096) / 365
  let y := yoe + era * 400
  let doy := doe - (365 * yoe + yoe / 4 - yoe / 100)
  let mp := (5 * doy + 2) / 153
  let d := doy - (153 * mp + 2) / 5 + 1
  let m := mp + (if mp < 10 then 3 else (-9))
  ⟨(if m ≤ 2 then y + 1 else y), m, d⟩

/-- Day number of a civil date.  `new Date(y, m-1, d)` normalizes an
out-of-range day linearly, as this formula does. -/
def daysFromCivil (y m d : Int) : Int :=
  let y2 := if m ≤ 2 then y - 1 else y
  let era := y2 / 400
  let yoe := y2 - era * 400
  let mp := if 2 < m then m - 3 else m + 9
  let doy := (153 * mp + 2) / 5 + d - 1
  let doe := yoe * 365 + yoe / 4 - yoe / 100 + doy
  era * 146097 + doe - 719468

/-- JS `getDay()`: 0 = Sunday … 6 = Saturday (1970-01-01 was a
Thursday). -/
def dowOfDays (z : Int) : Int := (z + 4) % 7

/-- Two-digit zero padding of a month or day component. -/
def pad2 (n : Int) : String := if n < 10 then "0" ++ toString n else toString n

/-- `toDateStr` (analytics.ts lines 238-243): `YYYY-MM-DD` with padded
month and day. -/
def toDateStr (cd : CivilDate) : String :=
  toString cd.year ++ "-" ++ pad2 cd.month ++ "-" ++ pad2 cd.day

/-- The `M/D` label format (analytics.ts line 299). -/
def fmtLabel (cd : CivilDate) : String :=
  toString cd.month ++ "/" ++ toString cd.day

/-- Splitting a character list at the separator characters dash, slash and
dot (the regex character class used by `split` in analytics.ts
line 247). -/
def splitOnSeps : List Char → List (List Char)
  | [] => [[]]
  | c :: t =>
    match splitOnSeps t with
    | [] => [[c]]
    | h :: rest =>
      if c = '-' ∨ c = '/' ∨ c = '.' then [] :: h :: rest
      else (c :: h) :: rest

/-- JS `Number(s)` on the digit strings this code feeds it; non-numeric
input (which would give `NaN`) is modelled as 0. -/
def numOfStr (l : List Char) : Int :=
  if l.all Char.isDigit then (natOfDigits l : Int) else 0

/-- `parseDateLocal` (analytics.ts lines 246-252): split on `-`, `/`, `.`
and, with at least three parts, build the local date from (Y, M, D).  The
generic-parse fallback for fewer than three parts does not arise for the
`YYYY-MM-DD` dates this code stores and is modelled as 1970-01-01. -/
def parseDateLocal (dateStr : String) : CivilDate :=
  let parts := splitOnSeps dateStr.data
  if 3 ≤ parts.length then
    civilOfDays (daysFromCivil (numOfStr (parts.getD 0 []))
      (numOfStr (parts.getD 1 [])) (numOfStr (parts.getD 2 [])))
  else ⟨1970, 1, 1⟩

/-! ## WeeklyComparator: `getWeeklyComparison`
(analytics.ts lines 232-318) -/

/-- `WeeklyStats` (analytics.ts lines 224-230). -/
structure WeeklyStats where
  thisWeekLabel : String
  lastWeekLabel : String
  thisWeekSales : ℚ
  lastWeekSales : ℚ
  growthRate : ℚ
deriving DecidableEq, Repr, Inhabited

/-- The day number of the start of the current week: the most recent Friday
on or before the latest date, reached by going back
`(dayOfWeek + 2) mod 7` days (analytics.ts lines 259-267). -/
def weekAnchorDays (latestDateStr : String) : Int :=
  let cur := parseDateLocal latestDateStr
  let curDays := daysFromCivil cur.year cur.month cur.day
  curDays - ((dowOfDays curDays + 2) % 7)

/-- `getWeeklyComparison` (analytics.ts lines 232-318). -/
def getWeeklyComparison (records : List SalesRecord) : WeeklyStats :=
  if records.isEmpty then ⟨"-", "-", 0, 0, 0⟩
  else
    let latestDateStr := latestDateOf (records.map (fun r => r.date))
    let startD := weekAnchorDays latestDateStr
    let thisStartStr := toDateStr (civilOfDays startD)
    let thisEndStr := toDateStr (civilOfDays (startD + 6))
    let lastStartStr := toDateStr (civilOfDays (startD - 7))
    let lastEndStr := toDateStr (civilOfDays (startD - 1))
    let sums := records.foldl
      (fun (acc : ℚ × ℚ) r =>
        if thisStartStr ≤ r.date ∧ r.date ≤ thisEndStr then
          (acc.1 + r.salesQty, acc.2)
        else if lastStartStr ≤ r.date ∧ r.date ≤ lastEndStr then
          (acc.1, acc.2 + r.salesQty)
        else acc)
      (0, 0)
    let growthRate : ℚ :=
      if 0 < sums.2 then (sums.1 - sums.2) / sums.2 * 100
      else if 0 < sums.1 then 100 else 0
    ⟨fmtLabel (civilOfDays startD) ++ "~" ++ fmtLabel (civilOfDays (startD + 6)),
     fmtLabel (civilOfDays (startD - 7)) ++ "~" ++
       fmtLabel (civilOfDays (startD - 1)),
     sums.1, sums.2, growthRate⟩

theorem foldl_week_sums (rs : List SalesRecord) (tS tE lS lE : String)
    (a b : ℚ) :
    (rs.foldl
      (fun (acc : ℚ × ℚ) r =>
        if tS ≤ r.date ∧ r.date ≤ tE then (acc.1 + r.salesQty, acc.2)
        else if lS ≤ r.date ∧ r.date ≤ lE then (acc.1, acc.2 + r.salesQty)
        else acc)
      (a, b)) =
      (a + ((rs.filter (fun r => decide (tS ≤ r.date ∧ r.date ≤ tE))).map
        (fun r => r.salesQty)).sum,
       b + ((rs.filter (fun r => !decide (tS ≤ r.date ∧ r.date ≤ tE) &&
          decide (lS ≤ r.date ∧ r.date ≤ lE))).map
        (fun r => r.salesQty)).sum) := by
  induction rs generalizing a b with
  | nil => simp
  | cons r rs ih =>
    by_cases h1 : tS ≤ r.date ∧ r.date ≤ tE
    · have e1 : List.filter (fun r => decide (tS ≤ r.date ∧ r.date ≤ tE))
          (r :: rs) =
          r :: List.filter (fun r => decide (tS ≤ r.date ∧ r.date ≤ tE)) rs := by
        rw [List.filter_cons, if_pos (by simpa using h1)]
      have e2 : List.filter
          (fun r => !decide (tS ≤ r.date ∧ r.date ≤ tE) &&
            decide (lS ≤ r.date ∧ r.date ≤ lE)) (r :: rs) =
          List.filter
          (fun r => !decide (tS ≤ r.date ∧ r.date ≤ tE) &&
            decide (lS ≤ r.date ∧ r.date ≤ lE)) rs := by
        rw [List.filter_cons]
        have : (!decide (tS ≤ r.date ∧ r.date ≤ tE) &&
            decide (lS ≤ r.date ∧ r.date ≤ lE)) = false := by
          rw [decide_eq_true h1]
          rfl
        rw [this]
        rfl
      rw [List.foldl_cons, if_pos h1, ih, e1, e2]
      simp only [List.map_cons, List.sum_cons, Prod.mk.injEq]
      constructor <;> ring_nf
    · have hb1 : decide (tS ≤ r.date ∧ r.date ≤ tE) = false :=
        decide_eq_false h1
      have e1 : List.filter (fun r => decide (tS ≤ r.date ∧ r.date ≤ tE))
          (r :: rs) =
          List.filter (fun r => decide (tS ≤ r.date ∧ r.date ≤ tE)) rs := by
        rw [List.filter_cons, hb1]
        rfl
      by_cases h2 : lS ≤ r.date ∧ r.date ≤ lE
      · have e2 : List.filter
            (fun r => !decide (tS ≤ r.date ∧ r.date ≤ tE) &&
              decide (lS ≤ r.date ∧ r.date ≤ lE)) (r :: rs) =
            r :: List.filter
            (fun r => !decide (tS ≤ r.date ∧ r.date ≤ tE) &&
              decide (lS ≤ r.date ∧ r.date ≤ lE)) rs := by
          rw [List.filter_cons]
          have : (!decide (tS ≤ r.date ∧ r.date ≤ tE) &&
              decide (lS ≤ r.date ∧ r.date ≤ lE)) = true := by
            rw [hb1, decide_eq_true h2]
            rfl
          rw [this]
          rfl
        rw [List.foldl_cons, if_neg h1, if_pos h2, ih, e1, e2]
        simp only [List.map_cons, List.sum_cons, Prod.mk.injEq]
        constructor <;> ring_nf
      · have e2 : List.filter
            (fun r => !decide (tS ≤ r.date ∧ r.date ≤ tE) &&
              decide (lS ≤ r.date ∧ r.date ≤ lE)) (r :: rs) =
            List.filter
            (fun r => !decide (tS ≤ r.date ∧ r.date ≤ tE) &&
              decide (lS ≤ r.date ∧ r.date ≤ lE)) rs := by
          rw [List.filter_cons]
          have : (!decide (tS ≤ r.date ∧ r.date ≤ tE) &&
              decide (lS ≤ r.date ∧ r.date ≤ lE)) = false := by
            rw [decide_eq_false h2, Bool.and_false]
          rw [this]
          rfl
        rw [List.foldl_cons, if_neg h1, if_neg h2, ih, e1, e2]

/-- C8: for a non-empty record set the weekly comparison anchors the
current week at the most recent Friday on or before the latest date in the
data (going back `(dayOfWeek + 2) mod 7` days, Sunday = 0), spans
Friday..Thursday with the previous week the 7 days immediately preceding,
sums sales into the two windows, and reports
`growthRate = (thisWeek - lastWeek)/lastWeek * 100`, or 100 when last week
is zero and this week non-zero, else 0 (sales quantities are non-negative
by the data model).  With latest date 2026-01-30, a Friday, the current
week spans 2026-01-30..2026-02-05 and the previous week
2026-01-23..2026-01-29. -/
theorem C8_weekly_friday_window (records : List SalesRecord)
    (hne : records ≠ [])
    (hnn : ∀ r ∈ records, 0 ≤ r.salesQty) :
    let L := latestDateOf (records.map (fun r => r.date))
    let curD := daysFromCivil (parseDateLocal L).year (parseDateLocal L).month
      (parseDateLocal L).day
    let start := weekAnchorDays L
    let tS := toDateStr (civilOfDays start)
    let tE := toDateStr (civilOfDays (start + 6))
    let lS := toDateStr (civilOfDays (start - 7))
    let lE := toDateStr (civilOfDays (start - 1))
    let W := getWeeklyComparison records
    (dowOfDays start = 5 ∧ start ≤ curD ∧ curD - start < 7) ∧
    (W.thisWeekSales =
        ((records.filter (fun r => decide (tS ≤ r.date ∧ r.date ≤ tE))).map
          (fun r => r.salesQty)).sum ∧
     W.lastWeekSales =
        ((records.filter (fun r => !decide (tS ≤ r.date ∧ r.date ≤ tE) &&
            decide (lS ≤ r.date ∧ r.date ≤ lE))).map
          (fun r => r.salesQty)).sum) ∧
    (W.thisWeekLabel =
        fmtLabel (civilOfDays start) ++ "~" ++ fmtLabel (civilOfDays (start + 6)) ∧
     W.lastWeekLabel =
        fmtLabel (civilOfDays (start - 7)) ++ "~" ++
          fmtLabel (civilOfDays (start - 1))) ∧
    ((W.lastWeekSales ≠ 0 →
        W.growthRate = (W.thisWeekSales - W.lastWeekSales) / W.lastWeekSales * 100) ∧
     (W.lastWeekSales = 0 → W.thisWeekSales ≠ 0 → W.growthRate = 100) ∧
     (W.lastWeekSales = 0 → W.thisWeekSales = 0 → W.growthRate = 0)) ∧
    (toDateStr (civilOfDays (weekAnchorDays "2026-01-30")) = "2026-01-30" ∧
     toDateStr (civilOfDays (weekAnchorDays "2026-01-30" + 6)) = "2026-02-05" ∧
     toDateStr (civilOfDays (weekAnchorDays "2026-01-30" - 7)) = "2026-01-23" ∧
     toDateStr (civilOfDays (weekAnchorDays "2026-01-30" - 1)) = "2026-01-29" ∧
     dowOfDays (weekAnchorDays "2026-01-30") = 5) := by
  obtain ⟨r0, rt, rfl⟩ : ∃ a l, records = a :: l := by
    cases records with
    | nil => exact absurd rfl hne
    | cons a l => exact ⟨a, l, rfl⟩
  intro L curD start tS tE lS lE W
  have hT : W.thisWeekSales =
      (((r0 :: rt).filter (fun r => decide (tS ≤ r.date ∧ r.date ≤ tE))).map
        (fun r => r.salesQty)).sum := by
    have h0 : W.thisWeekSales =
        (List.foldl
          (fun (acc : ℚ × ℚ) r =>
            if tS ≤ r.date ∧ r.date ≤ tE then (acc.1 + r.salesQty, acc.2)
            else if lS ≤ r.date ∧ r.date ≤ lE then (acc.1, acc.2 + r.salesQty)
            else acc)
          (0, 0) (r0 :: rt)).1 := rfl
    rw [h0, foldl_week_sums]
    simp
  have hL : W.lastWeekSales =
      (((r0 :: rt).filter (fun r => !decide (tS ≤ r.date ∧ r.date ≤ tE) &&
          decide (lS ≤ r.date ∧ r.date ≤ lE))).map
        (fun r => r.salesQty)).sum := by
    have h0 : W.lastWeekSales =
        (List.foldl
          (fun (acc : ℚ × ℚ) r =>
            if tS ≤ r.date ∧ r.date ≤ tE then (acc.1 + r.salesQty, acc.2)
            else if lS ≤ r.date ∧ r.date ≤ lE then (acc.1, acc.2 + r.salesQty)
            else acc)
          (0, 0) (r0 :: rt)).2 := rfl
    rw [h0, foldl_week_sums]
    simp
  have hTn : 0 ≤ W.thisWeekSales := by
    rw [hT]
    apply List.sum_nonneg
    intro x hx
    obtain ⟨r, hr, he⟩ := List.mem_map.mp hx
    rw [← he]
    exact hnn r (List.mem_filter.mp hr).1
  have hLn : 0 ≤ W.lastWeekSales := by
    rw [hL]
    apply List.sum_nonneg
    intro x hx
    obtain ⟨r, hr, he⟩ := List.mem_map.mp hx
    rw [← he]
    exact hnn r (List.mem_filter.mp hr).1
  have hg : W.growthRate =
      if 0 < W.lastWeekSales then
        (W.thisWeekSales - W.lastWeekSales) / W.lastWeekSales * 100
      else if 0 < W.thisWeekSales then 100 else 0 := rfl
  refine ⟨?_, ⟨hT, hL⟩, ⟨rfl, rfl⟩, ⟨?_, ?_, ?_⟩, by decide⟩
  · have h : weekAnchorDays L = curD - ((dowOfDays curD + 2) % 7) := rfl
    show dowOfDays (weekAnchorDays L) = 5 ∧
      weekAnchorDays L ≤ curD ∧ curD - weekAnchorDays L < 7
    rw [h]
    unfold dowOfDays
    omega
  · intro h
    rw [hg, if_pos (lt_of_le_of_ne hLn (Ne.symm h))]
  · intro h h2
    rw [hg, if_neg (by rw [h]; exact lt_irrefl 0),
      if_pos (lt_of_le_of_ne hTn (Ne.symm h2))]
  · intro h h2
    rw [hg, if_neg (by rw [h]; exact lt_irrefl 0),
      if_neg (by rw [h2]; exact lt_irrefl 0)]

/-- Witness for C8: the week anchor of a concrete one-record data set dated
2026-01-30 is a Friday. -/
theorem C8_weekly_friday_window_witness :
    dowOfDays (weekAnchorDays
      (latestDateOf ([mkRec "F" "2026-01-30" 2 0].map (fun r => r.date)))) = 5 := by
  have h := C8_weekly_friday_window [mkRec "F" "2026-01-30" 2 0]
    (by decide) (by decide)
  exact h.1.1

/-! ## TabularIngestor: the sheet parsers (src/utils/excelParser.ts)

The external spreadsheet decoder (`sheet_to_json(..., { header: 1 })`) is
out of scope; the embedding starts from its output, a grid of raw cell
values. -/

/-- A raw spreadsheet cell: text, number, or an absent/empty cell.
Numeric cells are modelled as integers (the claims only exercise integral
values, which doubles represent exactly). -/
inductive Cell where
  | text (s : String)
  | num (n : Int)
  | empty
deriving DecidableEq, Repr, Inhabited

/-- JS truthiness of a cell value: the empty string, the number 0 and
`undefined` are falsy. -/
def Cell.truthy : Cell → Bool
  | .text s => s != ""
  | .num n => n != 0
  | .empty => false

/-- JS `String(x)`; `String(undefined)` is the string "undefined", which
none of the keyword patterns below match. -/
def cellToStr : Cell → String
  | .text s => s
  | .num n => toString n
  | .empty => "undefined"

/-- One cell as rendered by `Array.prototype.join`: absent cells join as
empty strings. -/
def cellJoinStr : Cell → String
  | .text s => s
  | .num n => toString n
  | .empty => ""

/-- JS `row.join(' ')`. -/
def joinCells : List Cell → String
  | [] => ""
  | [c] => cellJoinStr c
  | c :: t => cellJoinStr c ++ " " ++ joinCells t

/-- A header cell as the detector sees it: `h?.toString().trim()`, where an
absent cell behaves as the string "undefined". -/
def headerStr (c : Cell) : String :=
  match c with
  | .empty => "undefined"
  | c => trimStr (cellToStr c)

/-! ### The keyword patterns (lower-cased literal alternations compiled
from the case-insensitive regexes of excelParser.ts) -/

/-- Header-row date keywords (line 62). -/
def reHeaderDate (s : String) : Bool :=
  let t := lowerStr s
  strHas t "날짜" || strHas t "date" || strHas t "일자" || strHas t "주문일자" ||
    strHas t "결제일자" || strHas t "주문일"

/-- Header-row product-identifier keywords (line 63). -/
def reHeaderProduct (s : String) : Bool :=
  let t := lowerStr s
  strHas t "상품명" || strHas t "옵션명" || strHas t "product" ||
    strHas t "sku" || strHas t "item" || strHas t "제품명" ||
    strHas t "품목" || strHas t "바코드" || strHas t "barcode"

/-- Date-column keywords (line 81). -/
def reDateCol (s : String) : Bool :=
  let t := lowerStr s
  strHas t "날짜" || strHas t "date" || strHas t "일자" || strHas t "주문일자" ||
    strHas t "결제일자" || strHas t "주문일" || strHas t "접수일" ||
    strHas t "판매일"

/-- Barcode keywords, first tier (line 84). -/
def reBarcode1 (s : String) : Bool :=
  let t := lowerStr s
  strHas t "바코드" || strHas t "barcode"

/-- Barcode keywords, second tier (line 85). -/
def reBarcode2 (s : String) : Bool :=
  let t := lowerStr s
  strHas t "상품코드" || strHas t "itemcode"

/-- Barcode keywords, third tier (line 86). -/
def reBarcode3 (s : String) : Bool :=
  let t := lowerStr s
  strHas t "업체상품코드" || strHas t "vendoritemcode" || strHas t "sku"

/-- Product-name column keywords (line 89). -/
def reNameCol (s : String) : Bool :=
  let t := lowerStr s
  strHas t "상품명" || strHas t "옵션명" || strHas t "product" ||
    strHas t "sku" || strHas t "item" || strHas t "제품명" || strHas t "품목"

/-- Headers that must never be chosen as the sales column (line 94):
returns, inbound, stock, purchase orders. -/
def reInvalidSales (s : String) : Bool :=
  let t := lowerStr s
  strHas t "반품" || strHas t "입고" || strHas t "재고" || strHas t "발주"

/-- Sales keywords, high-priority tier (line 97). -/
def reSales1 (s : String) : Bool :=
  let t := lowerStr s
  strHas t "출고수량" || strHas t "출고량" || strHas t "출고" ||
    strHas t "결제수량" || strHas t "판매량" || strHas t "판매수량"

/-- Sales keywords, medium tier (line 101); the regex `결제\s*수량` is
modelled with zero or one intervening space. -/
def reSales2 (s : String) : Bool :=
  let t := lowerStr s
  strHas t "주문수량" || strHas t "결제수량" || strHas t "결제 수량" ||
    strHas t "sales" || strHas t "quantity"

/-- Sales keywords, generic tier (line 106). -/
def reSales3 (s : String) : Bool :=
  let t := lowerStr s
  strHas t "수량" || strHas t "qty" || strHas t "개수" || strHas t "판매"

/-- Inventory-column keywords (line 109). -/
def reInventoryCol (s : String) : Bool :=
  let t := lowerStr s
  strHas t "재고" || strHas t "inventory" || strHas t "stock"

/-- Id-column keywords (line 110). -/
def reIdCol (s : String) : Bool :=
  let t := lowerStr s
  strHas t "옵션id" || strHas t "등록상품id" || strHas t "id"

/-- Sku-id-column keywords (line 111); `SKU\s*ID` is modelled with zero or
one intervening space. -/
def reSkuCol (s : String) : Bool :=
  let t := lowerStr s
  strHas t "업체상품코드" || strHas t "skuid" || strHas t "sku id" ||
    strHas t "sku"

/-- Total/subtotal-row keywords (line 134). -/
def reTotal (s : String) : Bool :=
  let t := lowerStr s
  strHas t "합계" || strHas t "소계" || strHas t "total" || strHas t "sum"

/-! ### Header and column detection for the sales sheet -/

/-- The header-row search (lines 52-76): scan at most the first 20 rows for
one whose joined text matches both the date and the product patterns; the
first hit wins. -/
def findHeaderRow : Nat → Nat → List (List Cell) → Option (Nat × List Cell)
  | _, _, [] => none
  | 0, _, _ => none
  | fuel + 1, i, row :: rest =>
    if row.isEmpty then findHeaderRow fuel (i + 1) rest
    else if reHeaderDate (joinCells row) && reHeaderProduct (joinCells row) then
      some (i, row)
    else findHeaderRow fuel (i + 1) rest

/-- Header detection (lines 52-76): the found row, else row 0. -/
def detectHeader (rawData : List (List Cell)) : Nat × List String :=
  match findHeaderRow 20 0 rawData with
  | some (i, row) => (i, row.map headerStr)
  | none => (0, (rawData.headD []).map headerStr)

/-- The detected sales-sheet column indices (lines 81-111); "not found"
(-1 in the source) is `none`. -/
structure SalesCols where
  dateIdx : Option Nat
  barcodeIdx : Option Nat
  nameIdx : Option Nat
  salesIdx : Option Nat
  inventoryIdx : Option Nat
  idIdx : Option Nat
  skuIdx : Option Nat
deriving DecidableEq, Repr, Inhabited

/-- Column detection over the header strings (lines 81-111): tiered,
first-match-wins keyword search per role; the sales tiers exclude
return/inbound/stock/order columns. -/
def detectSalesCols (headers : List String) : SalesCols :=
  { dateIdx := headers.findIdx? reDateCol,
    barcodeIdx := (headers.findIdx? reBarcode1).orElse
      (fun _ => (headers.findIdx? reBarcode2).orElse
        (fun _ => headers.findIdx? reBarcode3)),
    nameIdx := headers.findIdx? reNameCol,
    salesIdx :=
      (headers.findIdx? (fun h => !reInvalidSales h && reSales1 h)).orElse
        (fun _ =>
          (headers.findIdx? (fun h => !reInvalidSales h && reSales2 h)).orElse
            (fun _ => headers.findIdx? (fun h => !reInvalidSales h && reSales3 h))),
    inventoryIdx := headers.findIdx? reInventoryCol,
    idIdx := headers.findIdx? reIdCol,
    skuIdx := headers.findIdx? reSkuCol }

/-! ### Lenient number parsing and date normalization -/

/-- The rational denoted by the fractional digit run after a decimal
point. -/
def parseFracDigits (l : List Char) : ℚ :=
  l.reverse.foldl (fun acc c => (acc + ((c.toNat - 48 : Nat) : ℚ)) / 10) 0

/-- The longest-prefix decimal parse underlying JS `parseFloat` on a string
of digits, dots and minus signs. -/
def parseFloatCore (l : List Char) : Option ℚ :=
  match l.dropWhile Char.isDigit with
  | '.' :: rest2 =>
    if (l.takeWhile Char.isDigit).isEmpty ∧
        (rest2.takeWhile Char.isDigit).isEmpty then none
    else
      some ((natOfDigits (l.takeWhile Char.isDigit) : ℚ) +
        parseFracDigits (rest2.takeWhile Char.isDigit))
  | _ =>
    if (l.takeWhile Char.isDigit).isEmpty then none
    else some ((natOfDigits (l.takeWhile Char.isDigit) : ℚ))

/-- JS `parseFloat`: an optional leading minus then the longest valid
decimal prefix; `NaN` is `none`. -/
def parseFloatQ (s : String) : Option ℚ :=
  match s.data with
  | '-' :: rest => (parseFloatCore rest).map (fun q => -q)
  | l => parseFloatCore l

/-- `parseNum` (excelParser.ts lines 139-147): numbers pass through;
strings are stripped to digits, dots and minus signs and parsed leniently
(the source's trailing `trim` is a no-op after the strip); anything
unparseable, and an absent cell, becomes 0. -/
def parseNum (c : Cell) : ℚ :=
  match c with
  | .num n => (n : ℚ)
  | .text s =>
    (parseFloatQ (String.mk (s.data.filter
      (fun ch => ch.isDigit || ch = '.' || ch = '-')))).getD 0
  | .empty => 0

/-- The length of a month, for validating modelled generic date parses. -/
def daysInMonth (y m : Int) : Int :=
  if m = 2 then
    (if (y % 4 = 0 ∧ y % 100 ≠ 0) ∨ y % 400 = 0 then 29 else 28)
  else if m = 4 ∨ m = 6 ∨ m = 9 ∨ m = 11 then 30
  else 31

/-- Generic JS date-string parsing (`new Date(string)`), an engine facility
outside this repository.  Modelled: `YYYY-MM-DD`-shaped strings (with dash,
slash or dot separators) whose components form a real calendar date parse;
every other string is an invalid date (`none`). -/
def jsParseDateString (s : String) : Option CivilDate :=
  match splitOnSeps s.data with
  | [ys, ms, ds] =>
    if ys.length = 4 ∧ 1 ≤ ms.length ∧ ms.length ≤ 2 ∧ 1 ≤ ds.length ∧
        ds.length ≤ 2 ∧ (ys ++ ms ++ ds).all Char.isDigit then
      if 1 ≤ (natOfDigits ms : Int) ∧ (natOfDigits ms : Int) ≤ 12 ∧
          1 ≤ (natOfDigits ds : Int) ∧
          (natOfDigits ds : Int) ≤
            daysInMonth (natOfDigits ys : Int) (natOfDigits ms : Int) then
        some ⟨(natOfDigits ys : Int), (natOfDigits ms : Int),
          (natOfDigits ds : Int)⟩
      else none
    else none
  | _ => none

/-- The date normalization of one raw sales cell (excelParser.ts lines
149-179), tried in order with the first success winning:

1. eight digits beginning with "20" read as `YYYYMMDD`;
2. a number strictly between 35000 and 60000 read as a spreadsheet serial
   day count anchored at 1899-12-30 (`new Date(round((n-25569)*86400000))`,
   formatted `yyyy-MM-dd`);
3. generic date parsing (a number is a millisecond timestamp), accepted
   only when the year lies strictly between 2000 and 2100;
4. otherwise the fallback date, silently. -/
def normalizeRawDate (c : Cell) (todayStr : String) : String :=
  if !c.truthy then todayStr
  else if (onlyDigits (trimStr (cellToStr c))).length = 8 ∧
      strStarts (onlyDigits (trimStr (cellToStr c))) "20" then
    subStr (onlyDigits (trimStr (cellToStr c))) 0 4 ++ "-" ++
      subStr (onlyDigits (trimStr (cellToStr c))) 4 6 ++ "-" ++
      subStr (onlyDigits (trimStr (cellToStr c))) 6 8
  else
    match c with
    | .num n =>
      if 35000 < n ∧ n < 60000 then
        toDateStr (civilOfDays (n - 25569))
      else
        if 2000 < (civilOfDays (n / 86400000)).year ∧
            (civilOfDays (n / 86400000)).year < 2100 then
          toDateStr (civilOfDays (n / 86400000))
        else todayStr
    | .text s =>
      match jsParseDateString s with
      | some cd =>
        if 2000 < cd.year ∧ cd.year < 2100 then toDateStr cd else todayStr
      | none => todayStr
    | .empty => todayStr

/-! ### Sales rows -/

/-- `row[i]`: an out-of-range read yields the absent cell. -/
def cellAt (row : List Cell) (i : Nat) : Cell := row.getD i .empty

/-- One sales data row (excelParser.ts lines 125-205): skip empty rows,
rows with an untruthy name cell and total/subtotal rows; normalize the
date (column A when no date column was found); take the barcode from its
column, else from the legacy position column I (index 8), else "-"; parse
quantities leniently. -/
def parseSalesRow (cols : SalesCols) (todayStr : String) (row : List Cell) :
    Option SalesRecord :=
  if row.isEmpty then none
  else
    match
      (match cols.nameIdx with
       | some i => cellAt row i
       | none =>
         match cols.barcodeIdx with
         | some j => cellAt row j
         | none => .text "Unknown") with
    | nameCell =>
      if !nameCell.truthy then none
      else if reTotal (if (cellAt row 0).truthy then cellToStr (cellAt row 0)
          else "") || reTotal (cellToStr nameCell) then none
      else
        some
          ⟨(match cols.idIdx with
            | some i => trimStr (cellToStr (cellAt row i))
            | none => trimStr (cellToStr nameCell)),
           (match cols.skuIdx with
            | some i => trimStr (cellToStr (cellAt row i))
            | none =>
              match cols.idIdx with
              | some i => trimStr (cellToStr (cellAt row i))
              | none => trimStr (cellToStr nameCell)),
           trimStr (cellToStr nameCell),
           (match cols.barcodeIdx with
            | some i =>
              if (cellAt row i).truthy then trimStr (cellToStr (cellAt row i))
              else if (cellAt row 8).truthy then
                trimStr (cellToStr (cellAt row 8))
              else "-"
            | none =>
              if (cellAt row 8).truthy then trimStr (cellToStr (cellAt row 8))
              else "-"),
           normalizeRawDate (cellAt row (cols.dateIdx.getD 0)) todayStr,
           (match cols.salesIdx with
            | some i => parseNum (cellAt row i)
            | none => 0),
           (match cols.inventoryIdx with
            | some i => parseNum (cellAt row i)
            | none => 0)⟩

/-- The `(records, errors)` result of sales ingestion. -/
structure ParseResult where
  records : List SalesRecord
  errors : List String
deriving DecidableEq, Repr, Inhabited

/-- `parseExcel` after sheet decoding (excelParser.ts lines 46-206): fewer
than two rows is an immediate advisory error; then the header row and the
columns are detected; when neither a name nor a barcode column was found
and the date or the sales column is also missing, ingestion fails with a
descriptive error and zero records; otherwise every data row below the
header is parsed and the error list stays empty. -/
def parseSalesRows (rawData : List (List Cell)) (todayStr : String) :
    ParseResult :=
  if rawData.length < 2 then
    ⟨[], ["파일이 비어있거나 헤더가 없습니다."]⟩
  else if (detectSalesCols (detectHeader rawData).2).nameIdx = none ∧
      (detectSalesCols (detectHeader rawData).2).barcodeIdx = none ∧
      ((detectSalesCols (detectHeader rawData).2).dateIdx = none ∨
        (detectSalesCols (detectHeader rawData).2).salesIdx = none) then
    ⟨[], ["필수 데이터 열(날짜, 상품명/바코드, 판매량)을 찾을 수 없습니다. 헤더를 확인해주세요."]⟩
  else
    ⟨(rawData.drop ((detectHeader rawData).1 + 1)).filterMap
      (parseSalesRow (detectSalesCols (detectHeader rawData).2) todayStr), []⟩

/-! ### Product-master rows (excelParser.ts lines 216-324) -/

/-- Master barcode keywords (lines 239-242), on the whitespace-stripped
lower-cased header. -/
def mBarcodeKw (s : String) : Bool :=
  let c := cleanStr s
  strHas c "바코드" || strHas c "barcode" || strHas c "ean" || strHas c "upc"

/-- Master product-name keywords (lines 244-247). -/
def mNameKw (s : String) : Bool :=
  let c := cleanStr s
  strHas c "상품명" || strHas c "skuname" || strHas c "name" || strHas c "제품명"

/-- Master sku-id keywords (lines 249-252). -/
def mSkuKw (s : String) : Bool :=
  let c := cleanStr s
  strHas c "skuid" || strHas c "sku" || strHas c "code" || strHas c "코드"

/-- Master category keywords (line 254): case-sensitive `includes` on the
raw header. -/
def mCategoryKw (s : String) : Bool :=
  strHas s "카테고리" || strHas s "Category"

/-- Master cost keywords (line 255): case-sensitive `includes`. -/
def mCostKw (s : String) : Bool :=
  strHas s "원가" || strHas s "Cost"

/-- Master image keywords (lines 257-260). -/
def mImageKw (s : String) : Bool :=
  let c := cleanStr s
  strHas c "이미지" || strHas c "image" || strHas c "img" || strHas c "url"

/-- Master HQ-inventory keywords (lines 263-266). -/
def mHqKw (s : String) : Bool :=
  let c := cleanStr s
  strHas c "본사재고" || strHas c "hq" || strHas c "warehouse" || strHas c "창고"

/-- The detected master-sheet column indices (lines 239-266). -/
structure MasterCols where
  barcodeIdx : Option Nat
  nameIdx : Option Nat
  skuIdIdx : Option Nat
  categoryIdx : Option Nat
  costIdx : Option Nat
  imageIdx : Option Nat
  hqIdx : Option Nat
deriving DecidableEq, Repr, Inhabited

/-- Master column detection on the header strings of row 0. -/
def detectMasterCols (headers : List String) : MasterCols :=
  { barcodeIdx := headers.findIdx? mBarcodeKw,
    nameIdx := headers.findIdx? mNameKw,
    skuIdIdx := headers.findIdx? mSkuKw,
    categoryIdx := headers.findIdx? mCategoryKw,
    costIdx := headers.findIdx? mCostKw,
    imageIdx := headers.findIdx? mImageKw,
    hqIdx := headers.findIdx? mHqKw }

/-- The strict full-string decimal parse underlying JS `Number(s)`. -/
def jsNumberCore (l : List Char) : Option ℚ :=
  match l.dropWhile Char.isDigit with
  | [] =>
    if (l.takeWhile Char.isDigit).isEmpty then none
    else some ((natOfDigits (l.takeWhile Char.isDigit) : ℚ))
  | '.' :: rest2 =>
    if rest2.all Char.isDigit ∧
        ¬((l.takeWhile Char.isDigit).isEmpty ∧ rest2.isEmpty) then
      some ((natOfDigits (l.takeWhile Char.isDigit) : ℚ) +
        parseFracDigits rest2)
    else none
  | _ => none

/-- JS `Number(s)` on comma-stripped, trimmed input: the empty string is 0;
otherwise the whole string must be a decimal literal, else `NaN`
(`none`). -/
def jsNumberQ (s : String) : Option ℚ :=
  if s.data.isEmpty then some 0
  else
    match s.data with
    | '-' :: rest => (jsNumberCore rest).map (fun q => -q)
    | l => jsNumberCore l

/-- `parseNumMaster` (lines 282-288): `Number(val.replace(/,/g,'').trim())
|| 0`. -/
def parseNumMaster (c : Cell) : ℚ :=
  match c with
  | .num n => (n : ℚ)
  | .text s =>
    (jsNumberQ (trimStr (String.mk (s.data.filter (fun ch => ch ≠ ','))))).getD 0
  | .empty => 0

/-- The barcode chosen for a master row (lines 290-295): the cell in the
fixed column K (index 10) takes priority whenever it is truthy, overriding
the header-detected barcode column; else the header-detected cell when
truthy, else the empty string. -/
def masterBarcodeOf (cols : MasterCols) (row : List Cell) : String :=
  if (cellAt row 10).truthy then trimStr (cellToStr (cellAt row 10))
  else
    match cols.barcodeIdx with
    | some i =>
      if (cellAt row i).truthy then trimStr (cellToStr (cellAt row i)) else ""
    | none => ""

/-- One master data row (lines 276-315): empty rows are skipped; a row
yields a record only when its chosen barcode is non-empty and not "-";
`skuName` falls back from the name to the sku id to "Unknown". -/
def parseMasterRow (cols : MasterCols) (row : List Cell) :
    Option ProductMaster :=
  if row.isEmpty then none
  else if masterBarcodeOf cols row = "" ∨ masterBarcodeOf cols row = "-" then
    none
  else
    some
      ⟨masterBarcodeOf cols row,
       (if (match cols.nameIdx with
            | some i => trimStr (cellToStr (cellAt row i))
            | none => "") ≠ "" then
          (match cols.nameIdx with
           | some i => trimStr (cellToStr (cellAt row i))
           | none => "")
        else if (match cols.skuIdIdx with
            | some i => trimStr (cellToStr (cellAt row i))
            | none => "") ≠ "" then
          (match cols.skuIdIdx with
           | some i => trimStr (cellToStr (cellAt row i))
           | none => "")
        else "Unknown"),
       (match cols.skuIdIdx with
        | some i => trimStr (cellToStr (cellAt row i))
        | none => ""),
       (match cols.categoryIdx with
        | some i => some (trimStr (cellToStr (cellAt row i)))
        | none => none),
       (match cols.costIdx with
        | some i => some (parseNumMaster (cellAt row i))
        | none => none),
       (match cols.imageIdx with
        | some i => some (trimStr (cellToStr (cellAt row i)))
        | none => none),
       (match cols.hqIdx with
        | some i => some (parseNumMaster (cellAt row i))
        | none => none)⟩

/-- Comma-joined header list for the missing-barcode error message. -/
def joinComma : List String → String
  | [] => ""
  | [x] => x
  | x :: t => x ++ ", " ++ joinComma t

/-- The `(products, errors)` result of master ingestion. -/
structure MasterParseResult where
  products : List ProductMaster
  errors : List String
deriving DecidableEq, Repr, Inhabited

/-- `parseProductMaster` after sheet decoding (excelParser.ts lines
216-324): headers come from row 0; a missing barcode column is a
structural error; otherwise every data row below row 0 is parsed. -/
def parseMasterRows (rawData : List (List Cell)) : MasterParseResult :=
  if rawData.length < 2 then
    ⟨[], ["파일이 비어있거나 헤더가 없습니다."]⟩
  else
    match detectMasterCols ((rawData.headD []).map headerStr) with
    | cols =>
      match cols.barcodeIdx with
      | none =>
        ⟨[], ["'바코드' 열을 찾을 수 없습니다. (발견된 헤더: " ++
          joinComma ((rawData.headD []).map headerStr) ++ ")"]⟩
      | some _ => ⟨(rawData.drop 1).filterMap (parseMasterRow cols), []⟩

/-! ### The ingestion claims -/

/-- A grid whose headers yield a date and a quantity column but neither a
name nor a barcode column. -/
def gridC3bad : List (List Cell) :=
  [[.text "날짜", .text "수량"], [.text "20260101", .num 4]]

/-- A grid with a date column but no name, barcode or quantity column. -/
def gridC3fail : List (List Cell) :=
  [[.text "날짜", .text "바나나"], [.text "x", .text "y"]]

/-- C3 counterexample: on a sheet with a date and a quantity column but
neither a product-name nor a barcode column, the claim predicts structural
failure (zero records plus an error), yet ingestion proceeds and produces a
record with an empty error list. -/
theorem C3_required_columns_counterexample :
    (detectSalesCols (detectHeader gridC3bad).2).nameIdx = none ∧
    (detectSalesCols (detectHeader gridC3bad).2).barcodeIdx = none ∧
    (parseSalesRows gridC3bad "2026-02-10").records ≠ [] ∧
    (parseSalesRows gridC3bad "2026-02-10").errors = [] := by decide

/-- C3 (amended): sales ingestion fails structurally — zero records
together with the descriptive error string, and no exception since the
function is total — exactly when neither a product-name nor a barcode
column is found AND, in addition, the date column or the quantity column is
unresolved. -/
theorem C3_required_columns_failure (rawData : List (List Cell))
    (todayStr : String)
    (hlen : ¬ rawData.length < 2)
    (hname : (detectSalesCols (detectHeader rawData).2).nameIdx = none)
    (hbar : (detectSalesCols (detectHeader rawData).2).barcodeIdx = none)
    (hdq : (detectSalesCols (detectHeader rawData).2).dateIdx = none ∨
      (detectSalesCols (detectHeader rawData).2).salesIdx = none) :
    (parseSalesRows rawData todayStr).records = [] ∧
    (parseSalesRows rawData todayStr).errors =
      ["필수 데이터 열(날짜, 상품명/바코드, 판매량)을 찾을 수 없습니다. 헤더를 확인해주세요."] := by
  unfold parseSalesRows
  rw [if_neg hlen, if_pos ⟨hname, hbar, hdq⟩]
  exact ⟨rfl, rfl⟩

/-- Witness for the amended C3: a concrete sheet with a date column but no
name, barcode or quantity column is rejected with zero records. -/
theorem C3_required_columns_failure_witness :
    (parseSalesRows gridC3fail "2026-02-10").records = [] ∧
    (parseSalesRows gridC3fail "2026-02-10").errors =
      ["필수 데이터 열(날짜, 상품명/바코드, 판매량)을 찾을 수 없습니다. 헤더를 확인해주세요."] :=
  C3_required_columns_failure gridC3fail "2026-02-10" (by decide) (by decide)
    (by decide) (by decide)

/-- C5 counterexample: the lower bound 35000 itself is not converted as a
serial date.  The strict `rawDate > 35000` comparison sends it to the
generic branch, where the 1970 millisecond-timestamp year is rejected and
the fallback date is used, while the claim demands the serial conversion
1899-12-30 + 35000 days = 1995-10-28. -/
theorem C5_serial_lower_bound_counterexample :
    normalizeRawDate (Cell.num 35000) "2026-02-10" = "2026-02-10" ∧
    toDateStr (civilOfDays (daysFromCivil 1899 12 30 + 35000)) = "1995-10-28" ∧
    normalizeRawDate (Cell.num 35000) "2026-02-10" ≠
      toDateStr (civilOfDays (daysFromCivil 1899 12 30 + 35000)) := by decide

/-- C5 (amended): every numeric date cell strictly between 35000 and 60000
(whose digit string is not an 8-digit string beginning with "20", which the
earlier normalization step would consume) is converted as a day-count
serial date anchored at day 0 = 1899-12-30; the interval is open, not
half-open, at 35000. -/
theorem C5_serial_open_interval (n : Int) (todayStr : String)
    (h1 : 35000 < n) (h2 : n < 60000)
    (h8 : ¬((onlyDigits (trimStr (cellToStr (Cell.num n)))).length = 8 ∧
      strStarts (onlyDigits (trimStr (cellToStr (Cell.num n)))) "20")) :
    normalizeRawDate (Cell.num n) todayStr =
      toDateStr (civilOfDays (daysFromCivil 1899 12 30 + n)) := by
  have hc1 : ¬((!(Cell.num n).truthy) = true) := by
    simp [Cell.truthy]
    omega
  unfold normalizeRawDate
  rw [if_neg hc1, if_neg h8]
  show (if 35000 < n ∧ n < 60000 then toDateStr (civilOfDays (n - 25569))
    else
      if 2000 < (civilOfDays (n / 86400000)).year ∧
          (civilOfDays (n / 86400000)).year < 2100 then
        toDateStr (civilOfDays (n / 86400000))
      else todayStr) =
    toDateStr (civilOfDays (daysFromCivil 1899 12 30 + n))
  rw [if_pos ⟨h1, h2⟩]
  have hanch : daysFromCivil 1899 12 30 + n = n - 25569 := by
    have h : daysFromCivil 1899 12 30 = -25569 := by decide
    rw [h]
    ring
  rw [hanch]

/-- Witness for the amended C5: the serial 45000 converts to
1899-12-30 + 45000 days. -/
theorem C5_serial_open_interval_witness :
    normalizeRawDate (Cell.num 45000) "2026-02-10" =
      toDateStr (civilOfDays (daysFromCivil 1899 12 30 + 45000)) :=
  C5_serial_open_interval 45000 "2026-02-10" (by decide) (by decide) (by decide)

/-- The C6 example grid: a valid header row and a data row whose date cell
is unparseable. -/
def gridC6 : List (List Cell) :=
  [[.text "날짜", .text "상품명"], [.text "???", .text "위젯"]]

/-- C6: date normalization tries its steps in order with the first success
winning: "20260130" normalizes as `YYYYMMDD` to "2026-01-30"; the serial
45000 normalizes into the year 2023 (2023-03-15); an 8-digit number is
consumed by the `YYYYMMDD` step before any other; generic date-string
parsing is accepted only for years strictly between 2000 and 2100; and when
every step fails the fallback date is used silently — the row is still
produced and nothing is appended to the error list. -/
theorem C6_date_normalization_order :
    (∀ todayStr, normalizeRawDate (Cell.text "20260130") todayStr =
      "2026-01-30") ∧
    (∀ todayStr, normalizeRawDate (Cell.num 45000) todayStr = "2023-03-15" ∧
      subStr (normalizeRawDate (Cell.num 45000) todayStr) 0 4 = "2023") ∧
    (∀ todayStr, normalizeRawDate (Cell.num 20260130) todayStr =
      "2026-01-30") ∧
    (∀ s todayStr,
      ¬((onlyDigits (trimStr s)).length = 8 ∧
        strStarts (onlyDigits (trimStr s)) "20") →
      jsParseDateString s = none →
      normalizeRawDate (Cell.text s) todayStr = todayStr) ∧
    (∀ s todayStr cd,
      ¬((onlyDigits (trimStr s)).length = 8 ∧
        strStarts (onlyDigits (trimStr s)) "20") →
      jsParseDateString s = some cd →
      ¬(2000 < cd.year ∧ cd.year < 2100) →
      normalizeRawDate (Cell.text s) todayStr = todayStr) ∧
    ((parseSalesRows gridC6 "2026-02-10").records.map (fun r => r.date) =
      ["2026-02-10"] ∧
     (parseSalesRows gridC6 "2026-02-10").errors = []) := by
  refine ⟨fun _ => rfl, fun _ => ⟨rfl, rfl⟩, fun _ => rfl, ?_, ?_, by decide⟩
  · intro s todayStr h8 hp
    have h8' : ¬((onlyDigits (trimStr (cellToStr (Cell.text s)))).length = 8 ∧
        strStarts (onlyDigits (trimStr (cellToStr (Cell.text s)))) "20") := h8
    by_cases htr : (!(Cell.text s).truthy) = true
    · unfold normalizeRawDate
      rw [if_pos htr]
    · unfold normalizeRawDate
      rw [if_neg htr, if_neg h8']
      show (match jsParseDateString s with
        | some cd =>
          if 2000 < cd.year ∧ cd.year < 2100 then toDateStr cd else todayStr
        | none => todayStr) = todayStr
      rw [hp]
  · intro s todayStr cd h8 hp hy
    have h8' : ¬((onlyDigits (trimStr (cellToStr (Cell.text s)))).length = 8 ∧
        strStarts (onlyDigits (trimStr (cellToStr (Cell.text s)))) "20") := h8
    by_cases htr : (!(Cell.text s).truthy) = true
    · unfold normalizeRawDate
      rw [if_pos htr]
    · unfold normalizeRawDate
      rw [if_neg htr, if_neg h8']
      show (match jsParseDateString s with
        | some cd =>
          if 2000 < cd.year ∧ cd.year < 2100 then toDateStr cd else todayStr
        | none => todayStr) = todayStr
      rw [hp]
      show (if 2000 < cd.year ∧ cd.year < 2100 then toDateStr cd
        else todayStr) = todayStr
      rw [if_neg hy]

/-- Witness for C6: a well-formed date string with an out-of-range year
falls back to the provided date. -/
theorem C6_date_normalization_order_witness :
    normalizeRawDate (Cell.text "9999-01-01") "2026-02-10" = "2026-02-10" :=
  C6_date_normalization_order.2.2.2.2.1 "9999-01-01" "2026-02-10"
    ⟨9999, 1, 1⟩ (by decide) (by decide) (by decide)

/-- C9: in master ingestion, whenever the cell in column K (index 10) is
truthy, the resulting record's barcode is that cell's trimmed string,
overriding the header-detected barcode column; and the row yields a record
exactly when this barcode is non-empty and not "-". -/
theorem C9_master_colK_override (cols : MasterCols) (row : List Cell)
    (h10 : (cellAt row 10).truthy = true) :
    ((parseMasterRow cols row).isSome ↔
      (trimStr (cellToStr (cellAt row 10)) ≠ "" ∧
        trimStr (cellToStr (cellAt row 10)) ≠ "-")) ∧
    ∀ p, parseMasterRow cols row = some p →
      p.barcode = trimStr (cellToStr (cellAt row 10)) := by
  have hbc : masterBarcodeOf cols row = trimStr (cellToStr (cellAt row 10)) := by
    unfold masterBarcodeOf
    rw [if_pos h10]
  have hrow : ¬(row.isEmpty = true) := by
    intro he
    cases row with
    | nil => simp [cellAt, Cell.truthy] at h10
    | cons a t => simp at he
  unfold parseMasterRow
  rw [if_neg hrow]
  by_cases hcond : masterBarcodeOf cols row = "" ∨ masterBarcodeOf cols row = "-"
  · rw [if_pos hcond]
    constructor
    · simp only [Option.isSome_none, Bool.false_eq_true, false_iff]
      rw [hbc] at hcond
      tauto
    · intro p hp
      exact Option.noConfusion hp
  · rw [if_neg hcond]
    constructor
    · simp only [Option.isSome_some, true_iff]
      rw [hbc] at hcond
      push_neg at hcond
      exact hcond
    · intro p hp
      simp only [Option.some.injEq] at hp
      rw [← hp, ← hbc]

/-- The C9 witness row: a header-detected barcode in column A and an
overriding barcode " B10 " in column K. -/
def rowC9 : List Cell :=
  [.text "HDRBC", .empty, .empty, .empty, .empty, .empty, .empty, .empty,
   .empty, .empty, .text " B10 "]

/-- The C9 witness columns: the header-detected barcode column is index 0. -/
def colsC9 : MasterCols := ⟨some 0, none, none, none, none, none, none⟩

/-- Witness for C9 at a concrete row whose column K is truthy. -/
theorem C9_master_colK_override_witness :
    ((parseMasterRow colsC9 rowC9).isSome ↔
      (trimStr (cellToStr (cellAt rowC9 10)) ≠ "" ∧
        trimStr (cellToStr (cellAt rowC9 10)) ≠ "-")) ∧
    ∀ p, parseMasterRow colsC9 rowC9 = some p →
      p.barcode = trimStr (cellToStr (cellAt rowC9 10)) :=
  C9_master_colK_override colsC9 rowC9 (by decide)
